import Mathlib

set_option maxRecDepth 100000

/-!
# Verification of the mamar BGM codec core

This development shallowly embeds the mamar repository's BGM codec and the
editor-level operations that the specification describes, and proves the
specification's claims about them.

The byte-level codec (`Bgm::decode` / `Bgm::encode` in the `codec`/`pm64`
crates) is not part of the provided sources (only its tests in
`codec/tests/matching.rs`, its callers, and the SBN encoder stub are), so the
codec is modelled from the specification, as flagged on each such definition.
Byte buffers are modelled as `List Nat` (each entry one byte); multi-byte
scalars are big-endian per the spec.
-/

namespace Mamar

/-- Decode-error taxonomy, from the spec's §7 error-kinds list. -/
inductive DecodeError
  | truncation
  | badMagic
  | offsetOutOfRange
  | malformedOperand
  | invariantViolation
  | ioError
  deriving DecidableEq, Repr

deriving instance DecidableEq for Except

/-- Function `extract b p n`: the `n` bytes of `b` starting at absolute offset `p`. -/
def extract (b : List Nat) (p n : Nat) : List Nat :=
  (b.drop p).take n

/-- Read one byte at absolute offset `p`; cursor exhaustion is a truncation
error (spec §7). -/
def readU8 (b : List Nat) (p : Nat) : Except DecodeError Nat :=
  match b[p]? with
  | some v => .ok v
  | none => .error .truncation

/-- Read `n` raw bytes at absolute offset `p`. -/
def readBytes (b : List Nat) (p n : Nat) : Except DecodeError (List Nat) :=
  if p + n ≤ b.length then .ok (extract b p n) else .error .truncation

/-- Big-endian 16-bit read (spec §4.1: fixed-endian integer reads). -/
def readU16 (b : List Nat) (p : Nat) : Except DecodeError Nat :=
  match readU8 b p with
  | .error e => .error e
  | .ok hi =>
    match readU8 b (p + 1) with
    | .error e => .error e
    | .ok lo => .ok (hi * 256 + lo)

/-- Big-endian 24-bit read. -/
def readU24 (b : List Nat) (p : Nat) : Except DecodeError Nat :=
  match readU8 b p with
  | .error e => .error e
  | .ok hi =>
    match readU16 b (p + 1) with
    | .error e => .error e
    | .ok lo => .ok (hi * 65536 + lo)

/-- Big-endian 32-bit read. -/
def readU32 (b : List Nat) (p : Nat) : Except DecodeError Nat :=
  match readU16 b p with
  | .error e => .error e
  | .ok hi =>
    match readU16 b (p + 2) with
    | .error e => .error e
    | .ok lo => .ok (hi * 65536 + lo)

/-- Big-endian 16-bit write. -/
def emitU16 (v : Nat) : List Nat :=
  [v / 256, v % 256]

/-- Big-endian 24-bit write. -/
def emitU24 (v : Nat) : List Nat :=
  v / 65536 :: emitU16 (v % 65536)

/-- Big-endian 32-bit write. -/
def emitU32 (v : Nat) : List Nat :=
  emitU16 (v / 65536) ++ emitU16 (v % 65536)

/-!
## Command-sequence codec (spec §4.2)

Modelled from the spec: the `bgm` command-sequence decoder/encoder
(`codec::bgm::de` / `codec::bgm::en`) is not among the provided sources. The
spec's opcode list is explicitly illustrative, so the model fixes a
representative table: short delay (opcode `0x01`–`0x77`), long delay
(`0x78` + u16), note (`0x80`–`0xCF` packed pitch, + velocity and length
bytes), set-tempo (`0xE0` + u16), set-volume/pan/reverb (`0xE1`–`0xE3` + u8),
jump (`0xF4` + absolute u16 offset), terminator (`0x00`), and a catch-all
`unknown` variant preserving any other opcode byte verbatim. Operand widths
depend only on the opcode, as the spec requires. Jump labels are modelled as
their resolved in-sequence byte offsets (opaque `Nat` identities whose
resolution at encode time is the identity), since no claim concerns label
renaming.
-/

/-- Modelled from the spec: one command of a `CommandSeq` (spec §4.2). -/
inductive Command
  | delayShort (v : Nat)
  | delayLong (v : Nat)
  | note (pitch vel len : Nat)
  | setTempo (v : Nat)
  | setVolume (v : Nat)
  | setPan (v : Nat)
  | setReverb (v : Nat)
  | jump (target : Nat)
  | unknown (op : Nat)
  deriving DecidableEq, Repr

/-- Opcode bytes claimed by the known commands (including both delay forms). -/
def isKnownOp (op : Nat) : Bool :=
  (1 ≤ op && op ≤ 0x78) || (0x80 ≤ op && op ≤ 0xCF) ||
    (0xE0 ≤ op && op ≤ 0xE3) || op == 0xF4

/-- Modelled from the spec: serialize one command; the exact opcode read is
the exact opcode written (spec §4.2 tie-breaks). -/
def Command.emit : Command → List Nat
  | .delayShort v => [v]
  | .delayLong v => 0x78 :: emitU16 v
  | .note pitch vel len => [0x80 + pitch, vel, len]
  | .setTempo v => 0xE0 :: emitU16 v
  | .setVolume v => [0xE1, v]
  | .setPan v => [0xE2, v]
  | .setReverb v => [0xE3, v]
  | .jump target => 0xF4 :: emitU16 target
  | .unknown op => [op]

/-- Structural validity of one command: its serialized opcode dispatches back
to the same variant. -/
def Command.wf : Command → Bool
  | .delayShort v => 1 ≤ v && v ≤ 0x77
  | .delayLong _ => true
  | .note pitch _ _ => pitch ≤ 0x4F
  | .setTempo _ => true
  | .setVolume _ => true
  | .setPan _ => true
  | .setReverb _ => true
  | .jump _ => true
  | .unknown op => op != 0 && !isKnownOp op

/-- Modelled from the spec: serialize a command sequence followed by its
`End` terminator (opcode `0x00`). A zero-length sequence is legal and
serializes to the lone terminator. -/
def emitSeq (cmds : List Command) : List Nat :=
  (cmds.map Command.emit).flatten ++ [0]

/-- Modelled from the spec: decode a command sequence starting at absolute
offset `p`, reading opcodes until the `End` terminator is consumed. Unknown
opcodes are preserved, never rejected; only truncation fails. `fuel` bounds
the recursion (callers pass more than the buffer length, which any
successfully decoded sequence consumes at most one byte of per command). -/
def readSeq (b : List Nat) (p : Nat) : Nat → Except DecodeError (List Command)
  | 0 => .error .truncation
  | fuel + 1 =>
    match readU8 b p with
    | .error e => .error e
    | .ok op =>
      if op = 0 then .ok []
      else if op ≤ 0x77 then
        match readSeq b (p + 1) fuel with
        | .error e => .error e
        | .ok rest => .ok (.delayShort op :: rest)
      else if op = 0x78 then
        match readU16 b (p + 1) with
        | .error e => .error e
        | .ok v =>
          match readSeq b (p + 3) fuel with
          | .error e => .error e
          | .ok rest => .ok (.delayLong v :: rest)
      else if 0x80 ≤ op ∧ op ≤ 0xCF then
        match readU8 b (p + 1) with
        | .error e => .error e
        | .ok vel =>
          match readU8 b (p + 2) with
          | .error e => .error e
          | .ok len =>
            match readSeq b (p + 3) fuel with
            | .error e => .error e
            | .ok rest => .ok (.note (op - 0x80) vel len :: rest)
      else if op = 0xE0 then
        match readU16 b (p + 1) with
        | .error e => .error e
        | .ok v =>
          match readSeq b (p + 3) fuel with
          | .error e => .error e
          | .ok rest => .ok (.setTempo v :: rest)
      else if op = 0xE1 then
        match readU8 b (p + 1) with
        | .error e => .error e
        | .ok v =>
          match readSeq b (p + 2) fuel with
          | .error e => .error e
          | .ok rest => .ok (.setVolume v :: rest)
      else if op = 0xE2 then
        match readU8 b (p + 1) with
        | .error e => .error e
        | .ok v =>
          match readSeq b (p + 2) fuel with
          | .error e => .error e
          | .ok rest => .ok (.setPan v :: rest)
      else if op = 0xE3 then
        match readU8 b (p + 1) with
        | .error e => .error e
        | .ok v =>
          match readSeq b (p + 2) fuel with
          | .error e => .error e
          | .ok rest => .ok (.setReverb v :: rest)
      else if op = 0xF4 then
        match readU16 b (p + 1) with
        | .error e => .error e
        | .ok target =>
          match readSeq b (p + 3) fuel with
          | .error e => .error e
          | .ok rest => .ok (.jump target :: rest)
      else
        match readSeq b (p + 1) fuel with
        | .error e => .error e
        | .ok rest => .ok (.unknown op :: rest)

/-!
## Data model and object graph (spec §3, §4.6)

Modelled from the spec: the `Bgm` object graph of the missing codec sources.
Shared ownership of a `TrackList` by several subsegments is expressed with a
stable identifier (`TrackListId`, the index into `Bgm.trackLists`), exactly
the spec's "ordered collection of TrackLists accessed by stable identifier";
reference identity of two shared handles is identity of their ids. Command
sequences are stored inline per track (the spec's command-sequence sharing
layer is not exercised by any claim and is elided). `decodedPos` on
`TrackList` retains the on-disk position of the referenced track block, as
the spec's §4.3 and the matching tests require.
-/

/-- Modelled from the spec: per-track parameters preserved as read, plus the
track's command sequence; `none` models the format's "offset 0 = empty
track, no sequence" sentinel. -/
structure Track where
  flags : Nat
  instrument : Nat
  volume : Nat
  pan : Nat
  reverb : Nat
  seq : Option (List Command)
  deriving DecidableEq, Repr

/-- Modelled from the spec: exactly 16 tracks plus a display name; the
decoded on-disk position of the track block is retained for encoder ordering
and sharing diagnostics. -/
structure TrackList where
  name : String
  decodedPos : Option Nat
  tracks : List Track
  deriving DecidableEq, Repr

/-- Stable identifier by which subsegments share one TrackList. -/
abbrev TrackListId := Nat

/-- Modelled from the spec: a subsegment is either tracks-bearing (flags +
shared TrackList reference) or opaque (flags + three raw data bytes). -/
inductive Subsegment
  | tracks (flags : Nat) (trackList : TrackListId)
  | unknown (flags : Nat) (data : List Nat)
  deriving DecidableEq, Repr

/-- Modelled from the spec: a human-readable name plus an ordered list of
subsegments. -/
structure Segment where
  name : String
  subsegments : List Subsegment
  deriving DecidableEq, Repr

/-- Modelled from the spec: the root object. Exactly four optional segment
slots; miscellaneous header fields are preserved verbatim in `reserved`. -/
structure Bgm where
  name : List Nat
  segments : List (Option Segment)
  trackLists : List TrackList
  drums : List (List Nat)
  voices : List (List Nat)
  reserved : List Nat
  deriving DecidableEq, Repr

/-- Flags-byte selector for the tracks-bearing subsegment variant (spec
§4.4: "the selector is determined by the flags byte per the reference
table"; the editor creates tracks subsegments with flags `0x10`). -/
def isTracksFlags (f : Nat) : Bool :=
  0x10 ≤ f && f ≤ 0x1F

def Track.wf (t : Track) : Bool :=
  match t.seq with
  | none => true
  | some s => s.all Command.wf

def TrackList.wf (tl : TrackList) : Bool :=
  tl.tracks.length == 16 && tl.tracks.all Track.wf

def Subsegment.wf (n : Nat) : Subsegment → Bool
  | .tracks flags tl => isTracksFlags flags && tl < n
  | .unknown flags data => flags != 0 && !isTracksFlags flags && data.length == 3

def Segment.wf (n : Nat) (s : Segment) : Bool :=
  s.subsegments.all (Subsegment.wf n)

/-- Structural invariants of a `Bgm` (spec §3 invariants): four segment
slots, 16 tracks per list, 3 data bytes per opaque subsegment, in-range
shared references, valid commands, fixed-width drum (12 bytes) and voice
(16 bytes) records, 4-byte name and reserved fields. -/
def Bgm.wf (g : Bgm) : Bool :=
  g.name.length == 4 && g.segments.length == 4
    && g.segments.all (fun os =>
        match os with
        | none => true
        | some s => s.wf g.trackLists.length)
    && g.trackLists.all TrackList.wf
    && g.drums.all (fun d => d.length == 12)
    && g.voices.all (fun v => v.length == 16)
    && g.reserved.length == 4

/-!
## Encoder layout (spec §4.5)

Regions are emitted in the spec's order: header, segment subsegment-lists,
track blocks, command sequences, alignment padding, drum table, voice table.
The spec's backpatching of placeholder offsets is realized by computing each
region's final position first and emitting the finished bytes directly; the
resulting byte sequence is the same.
-/

/-- Serialized length of one track's command-sequence body. -/
def trackSeqLen (t : Track) : Nat :=
  match t.seq with
  | none => 0
  | some s => (emitSeq s).length

/-- Serialized length of all command-sequence bodies of one track list. -/
def trackListSeqLen (tl : TrackList) : Nat :=
  (tl.tracks.map trackSeqLen).sum

/-- Serialized length of one segment slot's subsegment list (4-byte
descriptors plus the 4-byte sentinel); absent slots emit nothing. -/
def segListLen : Option Segment → Nat
  | none => 0
  | some s => 4 * s.subsegments.length + 4

/-- Header size: magic, name, four slot offsets, drum offset/count, voice
offset/count, reserved. -/
def headerSize : Nat := 44

def Bgm.blocksStart (g : Bgm) : Nat :=
  headerSize + (g.segments.map segListLen).sum

/-- File position of track block `i` (blocks are 128 bytes: 16 records of 8
bytes; emitted in first-reference order, which for a canonical graph is id
order). -/
def Bgm.blockPos (g : Bgm) (i : Nat) : Nat :=
  g.blocksStart + 128 * i

def Bgm.seqsStart (g : Bgm) : Nat :=
  g.blocksStart + 128 * g.trackLists.length

/-- File position of the first command-sequence body of track list `i`. -/
def Bgm.tlSeqPos (g : Bgm) (i : Nat) : Nat :=
  g.seqsStart + ((g.trackLists.take i).map trackListSeqLen).sum

def Bgm.seqsEnd (g : Bgm) : Nat :=
  g.seqsStart + (g.trackLists.map trackListSeqLen).sum

/-- Zero bytes needed to pad position `n` to the next 4-byte boundary. -/
def pad4 (n : Nat) : Nat := (4 - n % 4) % 4

def Bgm.drumsStart (g : Bgm) : Nat := g.seqsEnd + pad4 g.seqsEnd

def Bgm.voicesStart (g : Bgm) : Nat := g.drumsStart + 12 * g.drums.length

/-- File position of slot `i`'s subsegment list, were it present. -/
def Bgm.slotOffset (g : Bgm) (i : Nat) : Nat :=
  headerSize + ((g.segments.take i).map segListLen).sum

/-- The offset value written in header slot `i`: 0 for an absent segment. -/
def Bgm.slotValue (g : Bgm) (i : Nat) : Nat :=
  match g.segments.getD i none with
  | none => 0
  | some _ => g.slotOffset i

/-- Modelled from the spec: one 8-byte track record: u16 command-sequence
offset (absolute; 0 = empty track), u16 flags, and the four parameter
bytes. -/
def emitTrackRecord (seqPos : Nat) (t : Track) : List Nat :=
  emitU16 (match t.seq with | none => 0 | some _ => seqPos) ++ emitU16 t.flags
    ++ [t.instrument, t.volume, t.pan, t.reverb]

/-- Records of one track block; `pos` is the file position where the first
track's sequence body will be emitted. -/
def emitTracks : List Track → Nat → List Nat
  | [], _ => []
  | t :: ts, pos => emitTrackRecord pos t ++ emitTracks ts (pos + trackSeqLen t)

/-- Command-sequence bodies of one track block, in track order. -/
def emitTrackSeqs : List Track → List Nat
  | [] => []
  | t :: ts =>
    (match t.seq with | none => [] | some s => emitSeq s) ++ emitTrackSeqs ts

def emitBlocksAux : List TrackList → Nat → List Nat
  | [], _ => []
  | tl :: tls, pos => emitTracks tl.tracks pos ++ emitBlocksAux tls (pos + trackListSeqLen tl)

def Bgm.emitBlocks (g : Bgm) : List Nat :=
  emitBlocksAux g.trackLists g.seqsStart

def emitSeqsAux : List TrackList → List Nat
  | [] => []
  | tl :: tls => emitTrackSeqs tl.tracks ++ emitSeqsAux tls

def Bgm.emitSeqs (g : Bgm) : List Nat :=
  emitSeqsAux g.trackLists

/-- Modelled from the spec: one 4-byte subsegment descriptor: flags byte,
then either a 24-bit pointer to the referenced track block or three opaque
data bytes. -/
def Bgm.emitSubsegment (g : Bgm) : Subsegment → List Nat
  | .tracks flags tl => flags :: emitU24 (g.blockPos tl)
  | .unknown flags data => flags :: data

/-- One slot's descriptor list terminated by the 4-byte zero sentinel. -/
def Bgm.emitSegList (g : Bgm) (s : Segment) : List Nat :=
  (s.subsegments.map g.emitSubsegment).flatten ++ [0, 0, 0, 0]

def Bgm.emitSlotLists (g : Bgm) : List Nat :=
  (g.segments.map (fun os =>
    match os with
    | none => []
    | some s => g.emitSegList s)).flatten

/-- Modelled from the spec: the header: magic `"BGM "`, 4-byte name, four
segment-slot offsets, drum-table offset and count, voice-table offset and
count, reserved bytes preserved verbatim. -/
def Bgm.emitHeader (g : Bgm) : List Nat :=
  [0x42, 0x47, 0x4D, 0x20] ++ g.name
    ++ emitU32 (g.slotValue 0) ++ emitU32 (g.slotValue 1)
    ++ emitU32 (g.slotValue 2) ++ emitU32 (g.slotValue 3)
    ++ emitU32 g.drumsStart ++ emitU32 g.drums.length
    ++ emitU32 g.voicesStart ++ emitU32 g.voices.length
    ++ g.reserved

/-- Modelled from the spec: `Bgm::encode`. Emits the regions in the spec's
order with alignment padding before the drum table; the seekable byte sink
is modelled as the returned byte list. -/
def Bgm.encode (g : Bgm) : List Nat :=
  g.emitHeader ++ g.emitSlotLists ++ g.emitBlocks ++ g.emitSeqs
    ++ List.replicate (pad4 g.seqsEnd) 0 ++ g.drums.flatten ++ g.voices.flatten

/-!
## Decoder (spec §4.2–§4.5)

Modelled from the spec: `Bgm::decode` walks the pointer-linked structure,
recording every track-block offset it has seen in a table so that two
subsegment descriptors with equal pointers share one `TrackList` (spec §4.3
shared-track-list detection, §4.6 identity sharing).
-/

/-- The decoder's offset table: the id of the already-decoded `TrackList`
whose recorded on-disk position is `ptr`, if any. -/
def lookupPos : List TrackList → Nat → Option Nat
  | [], _ => none
  | tl :: tls, ptr =>
    if tl.decodedPos = some ptr then some 0
    else (lookupPos tls ptr).map (· + 1)

/-- Modelled from the spec: decode one 8-byte track record; a zero sequence
offset means an empty track, otherwise the command sequence is decoded at
the stored absolute offset. -/
def readTrack (b : List Nat) (p : Nat) : Except DecodeError Track :=
  match readU16 b p with
  | .error e => .error e
  | .ok off =>
  match readU16 b (p + 2) with
  | .error e => .error e
  | .ok flags =>
  match readU8 b (p + 4) with
  | .error e => .error e
  | .ok instrument =>
  match readU8 b (p + 5) with
  | .error e => .error e
  | .ok volume =>
  match readU8 b (p + 6) with
  | .error e => .error e
  | .ok pan =>
  match readU8 b (p + 7) with
  | .error e => .error e
  | .ok reverb =>
    if off = 0 then .ok ⟨flags, instrument, volume, pan, reverb, none⟩
    else
      match readSeq b off (b.length + 1) with
      | .error e => .error e
      | .ok s => .ok ⟨flags, instrument, volume, pan, reverb, some s⟩

/-- Decode `k` consecutive 8-byte track records starting at `p`. -/
def readTracksN (b : List Nat) : Nat → Nat → Except DecodeError (List Track)
  | 0, _ => .ok []
  | k + 1, p =>
    match readTrack b p with
    | .error e => .error e
    | .ok t =>
      match readTracksN b k (p + 8) with
      | .error e => .error e
      | .ok ts => .ok (t :: ts)

/-- Modelled from the spec: decode a sentinel-terminated subsegment
descriptor list at `p`, threading the shared-track-list table `tls`. A
tracks descriptor whose 24-bit pointer is already in the table reuses the
existing id; otherwise the 16-track block is decoded at the pointer and
appended as a new `TrackList` recording its on-disk position. -/
def readSubsegs (b : List Nat) :
    Nat → List TrackList → Nat → Except DecodeError (List Subsegment × List TrackList)
  | _, _, 0 => .error .truncation
  | p, tls, fuel + 1 =>
    match readU8 b p with
    | .error e => .error e
    | .ok flags =>
      if flags = 0 then .ok ([], tls)
      else if isTracksFlags flags then
        match readU24 b (p + 1) with
        | .error e => .error e
        | .ok ptr =>
          match lookupPos tls ptr with
          | some i =>
            match readSubsegs b (p + 4) tls fuel with
            | .error e => .error e
            | .ok (ss, tls2) => .ok (.tracks flags i :: ss, tls2)
          | none =>
            match readTracksN b 16 ptr with
            | .error e => .error e
            | .ok ts =>
              match readSubsegs b (p + 4) (tls ++ [⟨"", some ptr, ts⟩]) fuel with
              | .error e => .error e
              | .ok (ss, tls2) => .ok (.tracks flags tls.length :: ss, tls2)
      else
        match readBytes b (p + 1) 3 with
        | .error e => .error e
        | .ok data =>
          match readSubsegs b (p + 4) tls fuel with
          | .error e => .error e
          | .ok (ss, tls2) => .ok (.unknown flags data :: ss, tls2)

/-- Decode one segment slot: offset 0 is an absent slot, otherwise the
subsegment list is decoded at the stored offset. -/
def readSlot (b : List Nat) (off : Nat) (tls : List TrackList) :
    Except DecodeError (Option Segment × List TrackList) :=
  if off = 0 then .ok (none, tls)
  else
    match readSubsegs b off tls (b.length + 1) with
    | .error e => .error e
    | .ok (ss, tls2) => .ok (some ⟨"", ss⟩, tls2)

/-- Decode `k` fixed-width records of `size` bytes starting at `p` (drum and
voice tables). -/
def readRecords (b : List Nat) (size : Nat) : Nat → Nat → Except DecodeError (List (List Nat))
  | 0, _ => .ok []
  | k + 1, p =>
    match readBytes b p size with
    | .error e => .error e
    | .ok r =>
      match readRecords b size k (p + size) with
      | .error e => .error e
      | .ok rs => .ok (r :: rs)

/-- Modelled from the spec: `Bgm::decode`. Validates the magic, reads the
header fields, walks the four segment slots (threading the shared-track-list
table), then reads the drum and voice tables at their stored offsets. -/
def Bgm.decode (b : List Nat) : Except DecodeError Bgm :=
  match readBytes b 0 4 with
  | .error e => .error e
  | .ok magic =>
    if magic ≠ [0x42, 0x47, 0x4D, 0x20] then .error .badMagic
    else
    match readBytes b 4 4 with
    | .error e => .error e
    | .ok name =>
    match readU32 b 8 with
    | .error e => .error e
    | .ok so0 =>
    match readU32 b 12 with
    | .error e => .error e
    | .ok so1 =>
    match readU32 b 16 with
    | .error e => .error e
    | .ok so2 =>
    match readU32 b 20 with
    | .error e => .error e
    | .ok so3 =>
    match readU32 b 24 with
    | .error e => .error e
    | .ok drumOff =>
    match readU32 b 28 with
    | .error e => .error e
    | .ok drumCount =>
    match readU32 b 32 with
    | .error e => .error e
    | .ok voiceOff =>
    match readU32 b 36 with
    | .error e => .error e
    | .ok voiceCount =>
    match readBytes b 40 4 with
    | .error e => .error e
    | .ok reserved =>
    match readSlot b so0 [] with
    | .error e => .error e
    | .ok (s0, t0) =>
    match readSlot b so1 t0 with
    | .error e => .error e
    | .ok (s1, t1) =>
    match readSlot b so2 t1 with
    | .error e => .error e
    | .ok (s2, t2) =>
    match readSlot b so3 t2 with
    | .error e => .error e
    | .ok (s3, t3) =>
    match readRecords b 12 drumCount drumOff with
    | .error e => .error e
    | .ok drums =>
    match readRecords b 16 voiceCount voiceOff with
    | .error e => .error e
    | .ok voices =>
      .ok ⟨name, [s0, s1, s2, s3], t3, drums, voices, reserved⟩

/-- Convenience wrapper (spec §6): parse from a byte slice. -/
def Bgm.from_bytes (b : List Nat) : Except DecodeError Bgm :=
  Bgm.decode b

/-!
## Canonical object graphs

`Bgm.decode` hands back ids in first-encounter order and emits names as
`""`; `Bgm.encode` emits blocks in id order. A graph is *canonical* when its
ids already appear in first-reference order during the encoder's traversal —
exactly the graphs the decoder produces — so that encode is injectively
invertible on it.
-/

/-- The shared-track-list reference of a subsegment, if any. -/
def Subsegment.refOf : Subsegment → Option TrackListId
  | .tracks _ tl => some tl
  | .unknown _ _ => none

def Segment.refsOf (s : Segment) : List TrackListId :=
  s.subsegments.filterMap Subsegment.refOf

/-- All shared-track-list references of a `Bgm` in encoder traversal order
(segment order, subsegment order). -/
def Bgm.refs (g : Bgm) : List TrackListId :=
  (g.segments.map (fun os =>
    match os with
    | none => []
    | some s => s.refsOf)).flatten

/-- Run the first-encounter id discipline over a reference list: starting
with `m` ids already seen (ids `0..m-1`), each reference must either reuse a
seen id or introduce the next fresh id. Returns the final count. -/
def runRefs : Nat → List TrackListId → Option Nat
  | m, [] => some m
  | m, r :: rest =>
    if r = m then runRefs (m + 1) rest
    else if r < m then runRefs m rest
    else none

/-- Canonical graphs: ids appear in first-reference order and every track
list is referenced; decoder-produced display names are empty. -/
def Bgm.canonical (g : Bgm) : Bool :=
  runRefs 0 g.refs == some g.trackLists.length
    && g.segments.all (fun os =>
        match os with
        | none => true
        | some s => s.name == "")
    && g.trackLists.all (fun tl => tl.name == "")

/-- Restamp each track list's `decodedPos` with the position its block gets
in this graph's own encoding, starting at `pos` for id 0 (blocks are 128
bytes each). -/
def reposAux (pos : Nat) : List TrackList → List TrackList
  | [] => []
  | tl :: tls => { tl with decodedPos := some pos } :: reposAux (pos + 128) tls

/-- The graph as the decoder would hand it back after a round trip: equal to
`g` except that every `decodedPos` records the block position assigned by
`Bgm.encode g`. -/
def Bgm.repos (g : Bgm) : Bgm :=
  { g with trackLists := reposAux g.blocksStart g.trackLists }

/-- Shared-track-list references contributed by one optional segment slot. -/
def segRefsOpt : Option Segment → List TrackListId
  | none => []
  | some s => s.refsOf

/-- Invariant of the decoder's shared-track-list table: entries are valid
16-track lists with empty names, each records its on-disk position, and no
two entries record the same position. -/
def TlInv (tls : List TrackList) : Prop :=
  (∀ tl ∈ tls, tl.wf = true ∧ tl.name = "" ∧ tl.decodedPos.isSome = true)
    ∧ List.Pairwise (fun x y => x.decodedPos ≠ y.decodedPos) tls

/-!
## Editor layer (mamar/src/interface/state.rs)

These definitions are translated from the provided `Document::update` source.
The immediate-mode UI plumbing is not modelled; each user-triggered action
becomes a function on the document's `Bgm`.
-/

/-- From `Document::update` (state.rs lines 301–315): the label shown for an
`Unknown` subsegment: flags `0x30` is a loop start, `0x50` a loop end,
anything else is presented as unknown. -/
def subsegLoopLabel (flags : Nat) : String :=
  if flags = 0x30 then "Loop start"
  else if flags = 0x50 then "Loop end"
  else "Unknown"

/-- Action "Delete variation" (state.rs line 360): clears the selected slot. -/
def deleteSegment (g : Bgm) (idx : Nat) : Bgm :=
  { g with segments := g.segments.set idx none }

/-- Action "New variation" (state.rs lines 398–403): fills an empty slot with a
fresh named segment. -/
def newSegment (g : Bgm) (idx : Nat) : Bgm :=
  { g with segments :=
      g.segments.set idx (some ⟨"Variation " ++ toString (idx + 1), []⟩) }

/-- Segment reordering in the old overview (state.rs line 500):
`bgm.segments.swap(a, b)`. -/
def swapSegments (g : Bgm) (a b : Nat) : Bgm :=
  { g with segments :=
      (g.segments.set a (g.segments.getD b none)).set b (g.segments.getD a none) }

/-- Action "Play" on a whole segment (state.rs lines 361–367): the temporary `Bgm`
handed to the player keeps only the selected slot. -/
def playSegmentBgm (g : Bgm) (idx : Nat) : Bgm :=
  { g with segments := [g.segments.getD idx none, none, none, none] }

/-- Action "Play" on one subsegment (state.rs lines 368–394): keeps the slot's
tracks-subsegments up to the selected index and silences the earlier ones.
`TrackList::silence_skip` lives in the unprovided `pm64` sources and is a
parameter. -/
def playSubsegBgm (silenceSkip : TrackList → TrackList) (g : Bgm)
    (idx subsegIdx : Nat) : Bgm :=
  match g.segments.getD idx none with
  | none => g
  | some seg =>
    let kept := (seg.subsegments.take (subsegIdx + 1)).filterMap (fun ss =>
      match ss with
      | Subsegment.tracks flags tl => some (Subsegment.tracks flags tl)
      | Subsegment.unknown _ _ => none)
    let toSilence := (seg.subsegments.take subsegIdx).filterMap Subsegment.refOf
    { g with
      segments := [some ⟨"", kept⟩, none, none, none]
      trackLists := g.trackLists.mapIdx (fun i tl =>
        if i ∈ toSilence then silenceSkip tl else tl) }

/-- Action "New section" (state.rs lines 341–346): registers a fresh default track
list and appends a tracks subsegment with flags `0x10` referencing it. -/
def addSubsegment (g : Bgm) (idx : Nat) : Bgm :=
  match g.segments.getD idx none with
  | none => g
  | some seg =>
    { g with
      trackLists := g.trackLists
        ++ [⟨"", none, List.replicate 16 ⟨0, 0, 0, 0, 0, none⟩⟩]
      segments := g.segments.set idx (some { seg with
        subsegments := seg.subsegments
          ++ [Subsegment.tracks 0x10 g.trackLists.length] }) }

/-- Action "Add loop" (state.rs lines 347–358): inserts an `Unknown` subsegment
with flags `0x30` at the front and appends another at the back. -/
def addLoops (g : Bgm) (idx : Nat) : Bgm :=
  match g.segments.getD idx none with
  | none => g
  | some seg =>
    { g with segments := g.segments.set idx (some { seg with
        subsegments := Subsegment.unknown 0x30 [0, 0, 0]
          :: (seg.subsegments ++ [Subsegment.unknown 0x30 [0, 0, 0]]) }) }

/-!
## Document persistence (mamar/src/interface/state.rs)
-/

/-- A filesystem path, reduced to what `Document::save` inspects: its
extension. -/
structure DocFilePath where
  ext : String
  deriving DecidableEq, Repr

/-- Type `DocPath` (state.rs lines 27–37): no path at all (New File), a
natively-supported path (bgm, ron), or an import-only path (midi). -/
inductive DocPath
  | new
  | native (path : DocFilePath)
  | imported (path : DocFilePath)
  deriving DecidableEq, Repr

/-- The document, reduced to the fields `save`/`can_save` inspect (the UI
state is irrelevant to them). -/
structure Document where
  bgm : Bgm
  path : DocPath

/-- Method `Document::can_save` (state.rs lines 143–145). -/
def Document.can_save (d : Document) : Bool :=
  match d.path with
  | .native _ => true
  | _ => false

/-- Method `Document::save` (state.rs lines 147–168): writes only when the path is
Native — ron-serialized for a `.ron` extension, `Bgm::encode` otherwise —
and silently returns `Ok(())` without writing for New/Import paths (the
`// TODO: Err` branch). File IO is modelled by returning the written file;
the ron serializer lives in an external crate and is a parameter. -/
def Document.save (ronSer : Bgm → List Nat) (d : Document) :
    Except String (Option (DocFilePath × List Nat)) :=
  match d.path with
  | .native p =>
    if p.ext = "ron" then .ok (some (p, ronSer d.bgm))
    else .ok (some (p, Bgm.encode d.bgm))
  | _ => .ok none

/-!
## SBN container encoder stub (pm64/src/sbn/en.rs)
-/

/-- Outcome of a call that may panic: Rust's `todo!` aborts with a message
instead of returning. -/
inductive PanicOr (α : Type)
  | panicked (msg : String)
  | ok (val : α)
  deriving DecidableEq, Repr

/-- The SBN archive. `Sbn::encode` never inspects it (en.rs line 18), so
only the fields' presence matters; contents are opaque records. -/
structure Sbn where
  files : List (List Nat)
  songs : List Nat
  deriving DecidableEq, Repr

/-- Method `Sbn::encode` (pm64/src/sbn/en.rs lines 17–19): the body is
`todo!("SBN encoding")`, which panics with Rust's standard
`not yet implemented` message before touching the writer. -/
def Sbn.encode (_ : Sbn) (_w : List Nat) : PanicOr Unit :=
  .panicked "not yet implemented: SBN encoding"

/-- Method `Sbn::as_bytes` (pm64/src/sbn/en.rs lines 11–15): encodes into a fresh
cursor and propagates the failure; the cursor still holds no bytes when the
panic happens. -/
def Sbn.as_bytes (s : Sbn) : PanicOr (List Nat) :=
  match s.encode [] with
  | .panicked m => .panicked m
  | .ok _ => .ok []

/-!
## File-type dispatch (editor/src/read_agnostic.rs)
-/

/-- Error type of the unprovided `midi::smf_to_bgm` converter. -/
inductive SmfError
  | invalid
  deriving DecidableEq, Repr

/-- Type `read_agnostic::Error` (read_agnostic.rs lines 12–18). -/
inductive ReadAgnosticError
  | unsupportedFileType
  | bgm (e : DecodeError)
  | smf (e : SmfError)
  | io
  deriving DecidableEq, Repr

/-- Function `read_agnostic` (read_agnostic.rs lines 60–72): `read_exact` of the
first four bytes (an input shorter than four bytes yields the io error it
reports), then dispatch: `BGM ` parses with `Bgm::from_bytes`, `MThd`
converts from MIDI (the converter, in the unprovided `midi` module, is a
parameter), anything else is `UnsupportedFileType`. -/
def read_agnostic (smfToBgm : List Nat → Except SmfError Bgm) (raw : List Nat) :
    Except ReadAgnosticError Bgm :=
  if raw.length < 4 then .error .io
  else if raw.take 4 = [0x42, 0x47, 0x4D, 0x20] then
    Except.mapError ReadAgnosticError.bgm (Bgm.from_bytes raw)
  else if raw.take 4 = [0x4D, 0x54, 0x68, 0x64] then
    Except.mapError ReadAgnosticError.smf (smfToBgm raw)
  else .error .unsupportedFileType

/-!
## Concrete witness inputs
-/

/-- A non-trivial track: delays, a note, a jump and an unknown opcode. -/
def witTrack : Track :=
  ⟨1, 2, 3, 4, 5, some [.delayShort 1, .note 0x20 100 10, .jump 0, .unknown 0xFF]⟩

def witEmptyTrack : Track := ⟨0, 0, 0, 0, 0, none⟩

def witTrackList : TrackList := ⟨"", none, witTrack :: List.replicate 15 witEmptyTrack⟩

/-- A small well-formed canonical graph: one segment with a loop marker and
one tracks subsegment, one drum record. -/
def witBgm : Bgm :=
  { name := [32, 32, 32, 32]
    segments := [some ⟨"", [.unknown 0x30 [0, 0, 0], .tracks 0x10 0]⟩, none, none, none]
    trackLists := [witTrackList]
    drums := [List.replicate 12 7]
    voices := []
    reserved := [0, 0, 0, 0] }

/-- A graph whose segment-0 subsegment 2 and segment-1 subsegment 1 share
one track list, mirroring the `Fuzzy_s_Took_My_Shell_12` sharing shape. -/
def witShareBgm : Bgm :=
  { name := [32, 32, 32, 32]
    segments := [some ⟨"", [.unknown 0x30 [0, 0, 0], .unknown 0x50 [0, 0, 0], .tracks 0x10 0]⟩,
                 some ⟨"", [.unknown 0x30 [0, 0, 0], .tracks 0x11 0]⟩, none, none]
    trackLists := [witTrackList]
    drums := []
    voices := []
    reserved := [0, 0, 0, 0] }

@[simp] theorem emitU16_length (v : Nat) : (emitU16 v).length = 2 := rfl

@[simp] theorem emitU24_length (v : Nat) : (emitU24 v).length = 3 := rfl

@[simp] theorem emitU32_length (v : Nat) : (emitU32 v).length = 4 := rfl

theorem extract_spec (pre mid post : List Nat) (p n : Nat)
    (hp : p = pre.length) (hn : n = mid.length) :
    extract (pre ++ mid ++ post) p n = mid := by
  subst hp hn
  simp [extract, List.drop_append, List.take_append]

theorem readU8_spec (pre post : List Nat) (v p : Nat) (hp : p = pre.length) :
    readU8 (pre ++ v :: post) p = .ok v := by
  subst hp
  rw [readU8, List.getElem?_append_right (Nat.le_refl pre.length)]
  simp

theorem readBytes_spec (pre mid post : List Nat) (p n : Nat)
    (hp : p = pre.length) (hn : n = mid.length) :
    readBytes (pre ++ mid ++ post) p n = .ok mid := by
  have hlen : p + n ≤ (pre ++ mid ++ post).length := by
    simp [hp, hn]
  rw [readBytes, if_pos hlen, extract_spec pre mid post p n hp hn]

theorem readU16_spec (pre post : List Nat) (v p : Nat)
    (hp : p = pre.length) :
    readU16 (pre ++ emitU16 v ++ post) p = .ok v := by
  have h1 : readU8 (pre ++ emitU16 v ++ post) p = .ok (v / 256) := by
    have := readU8_spec pre (v % 256 :: post) (v / 256) p hp
    simpa [emitU16] using this
  have h2 : readU8 (pre ++ emitU16 v ++ post) (p + 1) = .ok (v % 256) := by
    have := readU8_spec (pre ++ [v / 256]) post (v % 256) (p + 1)
      (by simp [hp])
    simpa [emitU16] using this
  have hvm : v / 256 * 256 + v % 256 = v := by omega
  simp only [readU16, h1, h2, hvm]

theorem readU24_spec (pre post : List Nat) (v p : Nat)
    (hp : p = pre.length) :
    readU24 (pre ++ emitU24 v ++ post) p = .ok v := by
  have h1 : readU8 (pre ++ emitU24 v ++ post) p = .ok (v / 65536) := by
    have := readU8_spec pre (emitU16 (v % 65536) ++ post) (v / 65536) p hp
    simpa [emitU24] using this
  have h2 : readU16 (pre ++ emitU24 v ++ post) (p + 1) = .ok (v % 65536) := by
    have := readU16_spec (pre ++ [v / 65536]) post (v % 65536) (p + 1)
      (by simp [hp])
    simpa [emitU24] using this
  have hvm : v / 65536 * 65536 + v % 65536 = v := by omega
  simp only [readU24, h1, h2, hvm]

theorem readU32_spec (pre post : List Nat) (v p : Nat)
    (hp : p = pre.length) :
    readU32 (pre ++ emitU32 v ++ post) p = .ok v := by
  have h1 : readU16 (pre ++ emitU32 v ++ post) p = .ok (v / 65536) := by
    have := readU16_spec pre (emitU16 (v % 65536) ++ post) (v / 65536) p hp
    simpa [emitU32] using this
  have h2 : readU16 (pre ++ emitU32 v ++ post) (p + 2) = .ok (v % 65536) := by
    have := readU16_spec (pre ++ emitU16 (v / 65536)) post (v % 65536) (p + 2)
      (by simp [hp])
    simpa [emitU32] using this
  have hvm : v / 65536 * 65536 + v % 65536 = v := by omega
  simp only [readU32, h1, h2, hvm]

theorem readBytes_length (b : List Nat) (p n : Nat) (out : List Nat)
    (h : readBytes b p n = .ok out) : out.length = n := by
  rw [readBytes] at h
  split at h
  · cases h
    simp only [extract, List.length_take, List.length_drop]
    omega
  · cases h

@[simp] theorem emitSeq_nil : emitSeq [] = [0] := rfl

theorem emitSeq_cons (c : Command) (cs : List Command) :
    emitSeq (c :: cs) = c.emit ++ emitSeq cs := by
  simp [emitSeq]

theorem Command.emit_length_pos (c : Command) : 0 < c.emit.length := by
  cases c <;> simp [Command.emit]

/-- Reading back a serialized command sequence embedded in a larger buffer
recovers exactly the original commands. -/
theorem readSeq_spec (cmds : List Command) (post : List Nat) :
    ∀ (pre : List Nat) (p fuel : Nat), (∀ c ∈ cmds, c.wf = true) →
      p = pre.length → cmds.length < fuel →
      readSeq (pre ++ emitSeq cmds ++ post) p fuel = .ok cmds := by
  induction cmds with
  | nil =>
    intro pre p fuel _ hp hf
    obtain ⟨f, rfl⟩ : ∃ f, fuel = f + 1 := ⟨fuel - 1, by omega⟩
    have h1 := readU8_spec pre post 0 p hp
    simp [readSeq, h1]
  | cons c cs ih =>
    intro pre p fuel hw hp hf
    obtain ⟨f, rfl⟩ : ∃ f, fuel = f + 1 := ⟨fuel - 1, by omega⟩
    have hwc : c.wf = true := hw c (List.mem_cons_self c cs)
    have hwcs : ∀ x ∈ cs, x.wf = true := fun x hx => hw x (List.mem_cons_of_mem c hx)
    have hrec : ∀ k, k = c.emit.length →
        readSeq ((pre ++ c.emit) ++ emitSeq cs ++ post) (p + k) f = .ok cs := by
      intro k hk
      exact ih (pre ++ c.emit) (p + k) f hwcs (by simp [hk, hp]) (by simp at hf; omega)
    cases c with
    | delayShort v =>
      simp only [Command.wf, Bool.and_eq_true, decide_eq_true_eq] at hwc
      have h1 := readU8_spec pre (emitSeq cs ++ post) v p hp
      have hr := hrec 1 rfl
      simp [Command.emit] at hr
      have hv0 : ¬(v = 0) := by omega
      have hv77 : v ≤ 0x77 := hwc.2
      simp [readSeq, emitSeq_cons, Command.emit, h1, hr, hv0, hv77]
    | delayLong v =>
      have h1 := readU8_spec pre (emitU16 v ++ emitSeq cs ++ post) 0x78 p hp
      have h2 := readU16_spec (pre ++ [0x78]) (emitSeq cs ++ post) v (p + 1) (by simp [hp])
      have hr := hrec 3 rfl
      simp [Command.emit, emitU16] at h1 h2 hr
      simp [readSeq, emitSeq_cons, Command.emit, emitU16, h1, h2, hr]
    | note pitch vel len =>
      simp only [Command.wf, decide_eq_true_eq] at hwc
      have h1 := readU8_spec pre (vel :: len :: (emitSeq cs ++ post)) (0x80 + pitch) p hp
      have h2 := readU8_spec (pre ++ [0x80 + pitch]) (len :: (emitSeq cs ++ post)) vel
        (p + 1) (by simp [hp])
      have h3 := readU8_spec (pre ++ [0x80 + pitch, vel]) (emitSeq cs ++ post) len
        (p + 2) (by simp [hp])
      have hr := hrec 3 rfl
      simp [Command.emit] at h2 h3 hr
      have hc0 : ¬(0x80 + pitch = 0) := by omega
      have hc1 : ¬(0x80 + pitch ≤ 0x77) := by omega
      have hc2 : ¬(0x80 + pitch = 0x78) := by omega
      have hc3 : 0x80 ≤ 0x80 + pitch ∧ 0x80 + pitch ≤ 0xCF := by omega
      have hsub : 0x80 + pitch - 0x80 = pitch := by omega
      simp [readSeq, emitSeq_cons, Command.emit, h1, h2, h3, hc0, hc1, hc2, hc3, hsub, hr]
    | setTempo v =>
      have h1 := readU8_spec pre (emitU16 v ++ emitSeq cs ++ post) 0xE0 p hp
      have h2 := readU16_spec (pre ++ [0xE0]) (emitSeq cs ++ post) v (p + 1) (by simp [hp])
      have hr := hrec 3 rfl
      simp [Command.emit, emitU16] at h1 h2 hr
      simp [readSeq, emitSeq_cons, Command.emit, emitU16, h1, h2, hr]
    | setVolume v =>
      have h1 := readU8_spec pre (v :: (emitSeq cs ++ post)) 0xE1 p hp
      have h2 := readU8_spec (pre ++ [0xE1]) (emitSeq cs ++ post) v (p + 1) (by simp [hp])
      have hr := hrec 2 rfl
      simp [Command.emit] at h2 hr
      simp [readSeq, emitSeq_cons, Command.emit, h1, h2, hr]
    | setPan v =>
      have h1 := readU8_spec pre (v :: (emitSeq cs ++ post)) 0xE2 p hp
      have h2 := readU8_spec (pre ++ [0xE2]) (emitSeq cs ++ post) v (p + 1) (by simp [hp])
      have hr := hrec 2 rfl
      simp [Command.emit] at h2 hr
      simp [readSeq, emitSeq_cons, Command.emit, h1, h2, hr]
    | setReverb v =>
      have h1 := readU8_spec pre (v :: (emitSeq cs ++ post)) 0xE3 p hp
      have h2 := readU8_spec (pre ++ [0xE3]) (emitSeq cs ++ post) v (p + 1) (by simp [hp])
      have hr := hrec 2 rfl
      simp [Command.emit] at h2 hr
      simp [readSeq, emitSeq_cons, Command.emit, h1, h2, hr]
    | jump target =>
      have h1 := readU8_spec pre (emitU16 target ++ emitSeq cs ++ post) 0xF4 p hp
      have h2 := readU16_spec (pre ++ [0xF4]) (emitSeq cs ++ post) target (p + 1)
        (by simp [hp])
      have hr := hrec 3 rfl
      simp [Command.emit, emitU16] at h1 h2 hr
      simp [readSeq, emitSeq_cons, Command.emit, emitU16, h1, h2, hr]
    | unknown op =>
      simp only [Command.wf, Bool.and_eq_true, bne_iff_ne, ne_eq, Bool.not_eq_true',
        isKnownOp, Bool.or_eq_false_iff, Bool.and_eq_false_iff,
        decide_eq_false_iff_not, not_le, beq_eq_false_iff_ne] at hwc
      have h1 := readU8_spec pre (emitSeq cs ++ post) op p hp
      have hr := hrec 1 rfl
      simp [Command.emit] at hr
      obtain ⟨hop0, hk⟩ := hwc
      have hc1 : ¬(op ≤ 0x77) := by rcases hk.1.1.1 with h | h <;> omega
      have hc2 : ¬(op = 0x78) := by rcases hk.1.1.1 with h | h <;> omega
      have hc3 : ¬(0x80 ≤ op ∧ op ≤ 0xCF) := by
        rcases hk.1.1.2 with h | h
        · intro hcontra; omega
        · intro hcontra; omega
      have hc4 : ¬(op = 0xE0) := by rcases hk.1.2 with h | h <;> omega
      have hc5 : ¬(op = 0xE1) := by rcases hk.1.2 with h | h <;> omega
      have hc6 : ¬(op = 0xE2) := by rcases hk.1.2 with h | h <;> omega
      have hc7 : ¬(op = 0xE3) := by rcases hk.1.2 with h | h <;> omega
      have hc8 : ¬(op = 0xF4) := hk.2
      simp [readSeq, emitSeq_cons, Command.emit, h1, hop0, hc1, hc2, hc3, hc4,
        hc5, hc6, hc7, hc8, hr]

/-- Any successfully decoded command sequence is structurally valid: the
decoder's dispatch conditions imply `Command.wf` for every decoded command. -/
theorem readSeq_wf (fuel : Nat) : ∀ (b : List Nat) (p : Nat) (cmds : List Command),
    readSeq b p fuel = .ok cmds → ∀ c ∈ cmds, c.wf = true := by
  induction fuel with
  | zero => intro b p cmds h; simp [readSeq] at h
  | succ f ih =>
    intro b p cmds h
    rw [readSeq] at h
    iterate 14 (all_goals (try split at h))
    all_goals first
      | exact Except.noConfusion h
      | (rw [Except.ok.injEq] at h
         subst h
         intro x hx
         first
           | exact absurd hx (List.not_mem_nil x)
           | (rcases List.mem_cons.mp hx with rfl | hx
              · simp [Command.wf, isKnownOp] <;> omega
              · exact ih _ _ _ (by assumption) x hx))

/-!
## Region lengths
-/

theorem emitTrackRecord_length (pos : Nat) (t : Track) :
    (emitTrackRecord pos t).length = 8 := by
  cases h : t.seq <;> simp [emitTrackRecord, h]

theorem emitTracks_length (ts : List Track) : ∀ pos : Nat,
    (emitTracks ts pos).length = 8 * ts.length := by
  induction ts with
  | nil => intro pos; simp [emitTracks]
  | cons t ts ih =>
    intro pos
    simp [emitTracks, emitTrackRecord_length, ih]
    ring

theorem emitTrackSeqs_length (ts : List Track) :
    (emitTrackSeqs ts).length = (ts.map trackSeqLen).sum := by
  induction ts with
  | nil => simp [emitTrackSeqs]
  | cons t ts ih =>
    cases h : t.seq <;> simp [emitTrackSeqs, h, ih, trackSeqLen]

theorem emitBlocksAux_length (tls : List TrackList)
    (h16 : ∀ tl ∈ tls, tl.tracks.length = 16) : ∀ pos : Nat,
    (emitBlocksAux tls pos).length = 128 * tls.length := by
  induction tls with
  | nil => intro pos; simp [emitBlocksAux]
  | cons tl tls ih =>
    intro pos
    have h1 := h16 tl (List.mem_cons_self tl tls)
    have h2 : ∀ x ∈ tls, x.tracks.length = 16 := fun x hx =>
      h16 x (List.mem_cons_of_mem tl hx)
    simp [emitBlocksAux, emitTracks_length, h1, ih h2]
    ring

theorem emitSeqsAux_length (tls : List TrackList) :
    (emitSeqsAux tls).length = (tls.map trackListSeqLen).sum := by
  induction tls with
  | nil => simp [emitSeqsAux]
  | cons tl tls ih =>
    simp [emitSeqsAux, emitTrackSeqs_length, ih, trackListSeqLen]

theorem emitSubsegment_length (g : Bgm) (n : Nat) (ss : Subsegment)
    (hw : ss.wf n = true) : (g.emitSubsegment ss).length = 4 := by
  cases ss with
  | tracks flags tl => simp [Bgm.emitSubsegment]
  | unknown flags data =>
    simp [Subsegment.wf] at hw
    simp [Bgm.emitSubsegment, hw.2]

theorem emitSubsegs_flatten_length (g : Bgm) (n : Nat) (ssl : List Subsegment)
    (hw : ∀ ss ∈ ssl, ss.wf n = true) :
    ((ssl.map g.emitSubsegment).flatten).length = 4 * ssl.length := by
  induction ssl with
  | nil => simp
  | cons ss rest ih =>
    simp [emitSubsegment_length g n ss (hw ss (List.mem_cons_self ss rest)),
      ih (fun x hx => hw x (List.mem_cons_of_mem ss hx))]
    ring

theorem emitSegList_length (g : Bgm) (n : Nat) (s : Segment)
    (hw : s.wf n = true) :
    (g.emitSegList s).length = 4 * s.subsegments.length + 4 := by
  simp only [Segment.wf, List.all_eq_true] at hw
  simp [Bgm.emitSegList, emitSubsegs_flatten_length g n s.subsegments hw]

theorem emitSlotListsAux_length (g : Bgm) (n : Nat) (segs : List (Option Segment))
    (hw : ∀ os ∈ segs, ∀ s, os = some s → s.wf n = true) :
    ((segs.map (fun os =>
      match os with
      | none => []
      | some s => g.emitSegList s)).flatten).length = (segs.map segListLen).sum := by
  induction segs with
  | nil => simp
  | cons os rest ih =>
    have h2 : ∀ o ∈ rest, ∀ s, o = some s → s.wf n = true := fun o ho s hs =>
      hw o (List.mem_cons_of_mem os ho) s hs
    cases hos : os with
    | none => simp [segListLen, ih h2]
    | some s =>
      have h1 : s.wf n = true := hw os (List.mem_cons_self os rest) s hos
      simp [segListLen, emitSegList_length g n s h1, ih h2]

theorem emitSlotLists_length (g : Bgm) (n : Nat)
    (hw : ∀ os ∈ g.segments, ∀ s, os = some s → s.wf n = true) :
    (g.emitSlotLists).length = (g.segments.map segListLen).sum :=
  emitSlotListsAux_length g n g.segments hw

theorem emitHeader_length (g : Bgm) (hn : g.name.length = 4)
    (hr : g.reserved.length = 4) : (g.emitHeader).length = headerSize := by
  simp [Bgm.emitHeader, hn, hr, headerSize]

/-!
## Decomposition of the encoded buffer, and the decoder's offset table
-/

theorem emitSeq_length_ge (cmds : List Command) :
    cmds.length + 1 ≤ (emitSeq cmds).length := by
  induction cmds with
  | nil => simp
  | cons c cs ih =>
    have := Command.emit_length_pos c
    simp only [emitSeq_cons, List.length_append, List.length_cons]
    omega

theorem emitTrackSeqs_decomp (j : Nat) : ∀ (ts : List Track) (hj : j < ts.length)
    (s : List Command), (ts.get ⟨j, hj⟩).seq = some s →
    ∃ pre post, emitTrackSeqs ts = pre ++ emitSeq s ++ post
      ∧ pre.length = ((ts.take j).map trackSeqLen).sum := by
  induction j with
  | zero =>
    intro ts hj s hs
    cases ts with
    | nil => simp at hj
    | cons t ts =>
      simp only [List.get] at hs
      exact ⟨[], emitTrackSeqs ts, by simp [emitTrackSeqs, hs], by simp⟩
  | succ j ih =>
    intro ts hj s hs
    cases ts with
    | nil => simp at hj
    | cons t ts =>
      obtain ⟨pre, post, hdecomp, hlen⟩ := ih ts (by simp at hj; omega) s hs
      refine ⟨(match t.seq with | none => [] | some s2 => emitSeq s2) ++ pre, post, ?_, ?_⟩
      · simp [emitTrackSeqs, hdecomp]
      · cases h : t.seq <;>
          simp [h, trackSeqLen, hlen, List.take_succ_cons]

theorem emitSeqsAux_decomp (i : Nat) : ∀ (tls : List TrackList) (hi : i < tls.length),
    ∃ pre post, emitSeqsAux tls = pre ++ emitTrackSeqs (tls.get ⟨i, hi⟩).tracks ++ post
      ∧ pre.length = ((tls.take i).map trackListSeqLen).sum := by
  induction i with
  | zero =>
    intro tls hi
    cases tls with
    | nil => simp at hi
    | cons tl tls =>
      exact ⟨[], emitSeqsAux tls, by simp [emitSeqsAux], by simp⟩
  | succ i ih =>
    intro tls hi
    cases tls with
    | nil => simp at hi
    | cons tl tls =>
      obtain ⟨pre, post, hdecomp, hlen⟩ := ih tls (by simp at hi; omega)
      refine ⟨emitTrackSeqs tl.tracks ++ pre, post, ?_, ?_⟩
      · simp [emitSeqsAux, hdecomp]
      · simp [emitTrackSeqs_length, trackListSeqLen, hlen, List.take_succ_cons]

theorem emitBlocksAux_decomp (i : Nat) : ∀ (tls : List TrackList) (pos : Nat)
    (hi : i < tls.length), (∀ tl ∈ tls, tl.tracks.length = 16) →
    ∃ pre post, emitBlocksAux tls pos
        = pre ++ emitTracks (tls.get ⟨i, hi⟩).tracks
            (pos + ((tls.take i).map trackListSeqLen).sum) ++ post
      ∧ pre.length = 128 * i := by
  induction i with
  | zero =>
    intro tls pos hi h16
    cases tls with
    | nil => simp at hi
    | cons tl tls =>
      exact ⟨[], emitBlocksAux tls (pos + trackListSeqLen tl),
        by simp [emitBlocksAux], by simp⟩
  | succ i ih =>
    intro tls pos hi h16
    cases tls with
    | nil => simp at hi
    | cons tl tls =>
      obtain ⟨pre, post, hdecomp, hlen⟩ := ih tls (pos + trackListSeqLen tl)
        (by simp at hi; omega) (fun x hx => h16 x (List.mem_cons_of_mem tl hx))
      refine ⟨emitTracks tl.tracks pos ++ pre, post, ?_, ?_⟩
      · have harith : pos + trackListSeqLen tl + ((tls.take i).map trackListSeqLen).sum
            = pos + (((tl :: tls).take (i + 1)).map trackListSeqLen).sum := by
          simp [List.take_succ_cons]
          ring
        simp only [emitBlocksAux, hdecomp, List.append_assoc, List.get_cons_succ]
        rw [harith]
      · simp [emitTracks_length, h16 tl (List.mem_cons_self tl tls), hlen]
        ring

theorem reposAux_length (tls : List TrackList) : ∀ pos : Nat,
    (reposAux pos tls).length = tls.length := by
  induction tls with
  | nil => intro pos; simp [reposAux]
  | cons tl tls ih => intro pos; simp [reposAux, ih]

theorem reposAux_take_succ (m : Nat) : ∀ (tls : List TrackList) (pos : Nat)
    (hm : m < tls.length),
    reposAux pos (tls.take (m + 1))
      = reposAux pos (tls.take m)
        ++ [{ tls.get ⟨m, hm⟩ with decodedPos := some (pos + 128 * m) }] := by
  induction m with
  | zero =>
    intro tls pos hm
    cases tls with
    | nil => simp at hm
    | cons tl tls => simp [reposAux]
  | succ m ih =>
    intro tls pos hm
    cases tls with
    | nil => simp at hm
    | cons tl tls =>
      have := ih tls (pos + 128) (by simp at hm; omega)
      simp only [List.take_succ_cons, reposAux, this, List.get_cons_succ]
      have harith : pos + 128 + 128 * m = pos + 128 * (m + 1) := by ring
      rw [harith]
      simp

theorem lookupPos_reposAux_hit (tls : List TrackList) : ∀ (pos j : Nat),
    j < tls.length → lookupPos (reposAux pos tls) (pos + 128 * j) = some j := by
  induction tls with
  | nil => intro pos j hj; simp at hj
  | cons tl tls ih =>
    intro pos j hj
    cases j with
    | zero => simp [reposAux, lookupPos]
    | succ j =>
      have hne : ¬((some pos : Option Nat) = some (pos + 128 * (j + 1))) := by
        simp only [Option.some.injEq]
        omega
      have harith : pos + 128 * (j + 1) = (pos + 128) + 128 * j := by ring
      simp only [reposAux, lookupPos, hne, if_false]
      rw [harith, ih (pos + 128) j (by simp at hj; omega)]
      rfl

theorem lookupPos_reposAux_miss (tls : List TrackList) : ∀ (pos ptr : Nat),
    (∀ j, j < tls.length → ptr ≠ pos + 128 * j) →
    lookupPos (reposAux pos tls) ptr = none := by
  induction tls with
  | nil => intro pos ptr _; simp [reposAux, lookupPos]
  | cons tl tls ih =>
    intro pos ptr hne
    have h0 : ¬((some pos : Option Nat) = some ptr) := by
      have := hne 0 (by simp)
      simp only [Option.some.injEq]
      omega
    simp only [reposAux, lookupPos, h0, if_false]
    rw [ih (pos + 128) ptr]
    · simp
    · intro j hj
      have := hne (j + 1) (by simp; omega)
      omega

theorem reposAux_map_tlLen (tls : List TrackList) : ∀ pos : Nat,
    (reposAux pos tls).map trackListSeqLen = tls.map trackListSeqLen := by
  induction tls with
  | nil => intro pos; simp [reposAux]
  | cons tl tls ih =>
    intro pos
    simp [reposAux, ih, trackListSeqLen]

/-!
## Reading back emitted blocks and sequences
-/

theorem Bgm.wf_parts (g : Bgm) (h : g.wf = true) :
    g.name.length = 4 ∧ g.segments.length = 4
      ∧ (∀ os ∈ g.segments, ∀ s, os = some s → s.wf g.trackLists.length = true)
      ∧ (∀ tl ∈ g.trackLists, tl.tracks.length = 16 ∧ ∀ t ∈ tl.tracks, t.wf = true)
      ∧ (∀ d ∈ g.drums, d.length = 12) ∧ (∀ v ∈ g.voices, v.length = 16)
      ∧ g.reserved.length = 4 := by
  simp only [Bgm.wf, Bool.and_eq_true, beq_iff_eq, List.all_eq_true] at h
  obtain ⟨⟨⟨⟨⟨⟨h1, h2⟩, h3⟩, h4⟩, h5⟩, h6⟩, h7⟩ := h
  refine ⟨h1, h2, ?_, ?_, ?_, ?_, h7⟩
  · intro os hos s hs
    have := h3 os hos
    rw [hs] at this
    exact this
  · intro tl htl
    have := h4 tl htl
    simp only [TrackList.wf, Bool.and_eq_true, beq_iff_eq, List.all_eq_true] at this
    exact ⟨this.1, this.2⟩
  · intro d hd
    have := h5 d hd
    simpa using this
  · intro v hv
    have := h6 v hv
    simpa using this

theorem readTracks_spec (B : List Nat) (ts : List Track) :
    ∀ (pre post : List Nat) (p q : Nat),
      B = pre ++ emitTracks ts q ++ post → p = pre.length → 0 < q →
      (∀ (j : Nat) (hj : j < ts.length) (s : List Command),
        (ts.get ⟨j, hj⟩).seq = some s →
        readSeq B (q + ((ts.take j).map trackSeqLen).sum) (B.length + 1) = .ok s) →
      readTracksN B ts.length p = .ok ts := by
  induction ts with
  | nil =>
    intro pre post p q hB hp hq hseqs
    simp [readTracksN]
  | cons t ts ih =>
    intro pre post p q hB hp hq hseqs
    cases hts : t.seq with
    | none =>
      have hB0 : B = pre ++ emitU16 0
          ++ (emitU16 t.flags ++ [t.instrument, t.volume, t.pan, t.reverb]
              ++ emitTracks ts (q + trackSeqLen t) ++ post) := by
        rw [hB]
        simp [emitTracks, emitTrackRecord, hts]
      have h1 : readU16 B p = .ok 0 := by
        rw [hB0]; exact readU16_spec pre _ 0 p hp
      have h2 : readU16 B (p + 2) = .ok t.flags := by
        have hB2 : B = (pre ++ emitU16 0) ++ emitU16 t.flags
            ++ ([t.instrument, t.volume, t.pan, t.reverb]
                ++ emitTracks ts (q + trackSeqLen t) ++ post) := by
          rw [hB0]; simp
        rw [hB2]; exact readU16_spec _ _ t.flags (p + 2) (by simp [hp])
      have h3 : readU8 B (p + 4) = .ok t.instrument := by
        have hB3 : B = (pre ++ emitU16 0 ++ emitU16 t.flags) ++ t.instrument
            :: ([t.volume, t.pan, t.reverb]
                ++ emitTracks ts (q + trackSeqLen t) ++ post) := by
          rw [hB0]; simp
        rw [hB3]; exact readU8_spec _ _ t.instrument (p + 4) (by simp [hp])
      have h4 : readU8 B (p + 5) = .ok t.volume := by
        have hB4 : B = (pre ++ emitU16 0 ++ emitU16 t.flags ++ [t.instrument])
            ++ t.volume :: ([t.pan, t.reverb]
                ++ emitTracks ts (q + trackSeqLen t) ++ post) := by
          rw [hB0]; simp
        rw [hB4]; exact readU8_spec _ _ t.volume (p + 5) (by simp [hp])
      have h5 : readU8 B (p + 6) = .ok t.pan := by
        have hB5 : B = (pre ++ emitU16 0 ++ emitU16 t.flags ++ [t.instrument, t.volume])
            ++ t.pan :: ([t.reverb] ++ emitTracks ts (q + trackSeqLen t) ++ post) := by
          rw [hB0]; simp
        rw [hB5]; exact readU8_spec _ _ t.pan (p + 6) (by simp [hp])
      have h6 : readU8 B (p + 7) = .ok t.reverb := by
        have hB6 : B = (pre ++ emitU16 0 ++ emitU16 t.flags
              ++ [t.instrument, t.volume, t.pan])
            ++ t.reverb :: (emitTracks ts (q + trackSeqLen t) ++ post) := by
          rw [hB0]; simp
        rw [hB6]; exact readU8_spec _ _ t.reverb (p + 7) (by simp [hp])
      have htrack : readTrack B p = .ok t := by
        have heta : Track.mk t.flags t.instrument t.volume t.pan t.reverb none = t := by
          cases t
          simp_all
        simp [readTrack, h1, h2, h3, h4, h5, h6, heta]
      have hrest : readTracksN B ts.length (p + 8) = .ok ts := by
        refine ih (pre ++ emitTrackRecord q t) post (p + 8) (q + trackSeqLen t) ?_
          (by simp [hp, emitTrackRecord_length]) (by omega) ?_
        · rw [hB]
          simp [emitTracks]
        · intro j hj s hs
          have := hseqs (j + 1) (by simpa using Nat.succ_lt_succ hj) s hs
          have harith : q + (((t :: ts).take (j + 1)).map trackSeqLen).sum
              = q + trackSeqLen t + ((ts.take j).map trackSeqLen).sum := by
            simp [List.take_succ_cons]
            ring
          rwa [harith] at this
      show readTracksN B (ts.length + 1) p = .ok (t :: ts)
      simp [readTracksN, htrack, hrest]
    | some s0 =>
      have hB0 : B = pre ++ emitU16 q
          ++ (emitU16 t.flags ++ [t.instrument, t.volume, t.pan, t.reverb]
              ++ emitTracks ts (q + trackSeqLen t) ++ post) := by
        rw [hB]
        simp [emitTracks, emitTrackRecord, hts]
      have h1 : readU16 B p = .ok q := by
        rw [hB0]; exact readU16_spec pre _ q p hp
      have h2 : readU16 B (p + 2) = .ok t.flags := by
        have hB2 : B = (pre ++ emitU16 q) ++ emitU16 t.flags
            ++ ([t.instrument, t.volume, t.pan, t.reverb]
                ++ emitTracks ts (q + trackSeqLen t) ++ post) := by
          rw [hB0]; simp
        rw [hB2]; exact readU16_spec _ _ t.flags (p + 2) (by simp [hp])
      have h3 : readU8 B (p + 4) = .ok t.instrument := by
        have hB3 : B = (pre ++ emitU16 q ++ emitU16 t.flags) ++ t.instrument
            :: ([t.volume, t.pan, t.reverb]
                ++ emitTracks ts (q + trackSeqLen t) ++ post) := by
          rw [hB0]; simp
        rw [hB3]; exact readU8_spec _ _ t.instrument (p + 4) (by simp [hp])
      have h4 : readU8 B (p + 5) = .ok t.volume := by
        have hB4 : B = (pre ++ emitU16 q ++ emitU16 t.flags ++ [t.instrument])
            ++ t.volume :: ([t.pan, t.reverb]
                ++ emitTracks ts (q + trackSeqLen t) ++ post) := by
          rw [hB0]; simp
        rw [hB4]; exact readU8_spec _ _ t.volume (p + 5) (by simp [hp])
      have h5 : readU8 B (p + 6) = .ok t.pan := by
        have hB5 : B = (pre ++ emitU16 q ++ emitU16 t.flags ++ [t.instrument, t.volume])
            ++ t.pan :: ([t.reverb] ++ emitTracks ts (q + trackSeqLen t) ++ post) := by
          rw [hB0]; simp
        rw [hB5]; exact readU8_spec _ _ t.pan (p + 6) (by simp [hp])
      have h6 : readU8 B (p + 7) = .ok t.reverb := by
        have hB6 : B = (pre ++ emitU16 q ++ emitU16 t.flags
              ++ [t.instrument, t.volume, t.pan])
            ++ t.reverb :: (emitTracks ts (q + trackSeqLen t) ++ post) := by
          rw [hB0]; simp
        rw [hB6]; exact readU8_spec _ _ t.reverb (p + 7) (by simp [hp])
      have hseq0 : readSeq B q (B.length + 1) = .ok s0 := by
        have := hseqs 0 (by simp) s0 (by simpa using hts)
        simpa using this
      have htrack : readTrack B p = .ok t := by
        have heta : Track.mk t.flags t.instrument t.volume t.pan t.reverb (some s0) = t := by
          cases t
          simp_all
        have hq0 : ¬(q = 0) := by omega
        simp [readTrack, h1, h2, h3, h4, h5, h6, hq0, hseq0, heta]
      have hrest : readTracksN B ts.length (p + 8) = .ok ts := by
        refine ih (pre ++ emitTrackRecord q t) post (p + 8) (q + trackSeqLen t) ?_
          (by simp [hp, emitTrackRecord_length]) (by omega) ?_
        · rw [hB]
          simp [emitTracks]
        · intro j hj s hs
          have := hseqs (j + 1) (by simpa using Nat.succ_lt_succ hj) s hs
          have harith : q + (((t :: ts).take (j + 1)).map trackSeqLen).sum
              = q + trackSeqLen t + ((ts.take j).map trackSeqLen).sum := by
            simp [List.take_succ_cons]
            ring
          rwa [harith] at this
      show readTracksN B (ts.length + 1) p = .ok (t :: ts)
      simp [readTracksN, htrack, hrest]

theorem readSeq_at (g : Bgm) (hwf : g.wf = true) (i : Nat) (hi : i < g.trackLists.length)
    (j : Nat) (hj : j < (g.trackLists.get ⟨i, hi⟩).tracks.length) (s : List Command)
    (hs : ((g.trackLists.get ⟨i, hi⟩).tracks.get ⟨j, hj⟩).seq = some s) :
    readSeq (Bgm.encode g)
      (g.tlSeqPos i + (((g.trackLists.get ⟨i, hi⟩).tracks.take j).map trackSeqLen).sum)
      ((Bgm.encode g).length + 1) = .ok s := by
  obtain ⟨hname, hsegs4, hsegwf, htls, hdr, hvc, hres⟩ := Bgm.wf_parts g hwf
  obtain ⟨preS, postS, hSdec, hSlen⟩ := emitSeqsAux_decomp i g.trackLists hi
  obtain ⟨preT, postT, hTdec, hTlen⟩ :=
    emitTrackSeqs_decomp j (g.trackLists.get ⟨i, hi⟩).tracks hj s hs
  have hB : Bgm.encode g
      = (g.emitHeader ++ g.emitSlotLists ++ g.emitBlocks ++ preS ++ preT)
        ++ emitSeq s
        ++ (postT ++ postS ++ List.replicate (pad4 g.seqsEnd) 0
            ++ g.drums.flatten ++ g.voices.flatten) := by
    rw [Bgm.encode]
    rw [show g.emitSeqs = preS ++ (preT ++ emitSeq s ++ postT) ++ postS by
      rw [Bgm.emitSeqs, hSdec, hTdec]]
    simp
  have h16 : ∀ tl ∈ g.trackLists, tl.tracks.length = 16 := fun tl h => (htls tl h).1
  have hpos : g.tlSeqPos i
        + (((g.trackLists.get ⟨i, hi⟩).tracks.take j).map trackSeqLen).sum
      = (g.emitHeader ++ g.emitSlotLists ++ g.emitBlocks ++ preS ++ preT).length := by
    simp only [List.length_append, emitHeader_length g hname hres,
      emitSlotLists_length g g.trackLists.length hsegwf, Bgm.emitBlocks,
      emitBlocksAux_length g.trackLists h16, hSlen, hTlen,
      Bgm.tlSeqPos, Bgm.seqsStart, Bgm.blocksStart, headerSize]
  have hfuel : s.length < (Bgm.encode g).length + 1 := by
    have hge := emitSeq_length_ge s
    have : (emitSeq s).length ≤ (Bgm.encode g).length := by
      rw [hB]
      simp only [List.length_append]
      omega
    omega
  have hw : ∀ c ∈ s, c.wf = true := by
    have htl := htls (g.trackLists.get ⟨i, hi⟩) (List.get_mem g.trackLists i hi)
    have htr := htl.2 ((g.trackLists.get ⟨i, hi⟩).tracks.get ⟨j, hj⟩)
      (List.get_mem (g.trackLists.get ⟨i, hi⟩).tracks j hj)
    rw [Track.wf, hs] at htr
    simpa [List.all_eq_true] using htr
  rw [hB] at hfuel ⊢
  exact readSeq_spec s _ _ _ _ hw hpos hfuel

theorem readBlock_at (g : Bgm) (hwf : g.wf = true) (i : Nat)
    (hi : i < g.trackLists.length) :
    readTracksN (Bgm.encode g) 16 (g.blockPos i)
      = .ok (g.trackLists.get ⟨i, hi⟩).tracks := by
  obtain ⟨hname, hsegs4, hsegwf, htls, hdr, hvc, hres⟩ := Bgm.wf_parts g hwf
  have h16 : ∀ tl ∈ g.trackLists, tl.tracks.length = 16 := fun tl h => (htls tl h).1
  obtain ⟨preB, postB, hBdec, hBlen⟩ :=
    emitBlocksAux_decomp i g.trackLists g.seqsStart hi h16
  have hB : Bgm.encode g = (g.emitHeader ++ g.emitSlotLists ++ preB)
      ++ emitTracks (g.trackLists.get ⟨i, hi⟩).tracks
          (g.seqsStart + ((g.trackLists.take i).map trackListSeqLen).sum)
      ++ (postB ++ g.emitSeqs ++ List.replicate (pad4 g.seqsEnd) 0
          ++ g.drums.flatten ++ g.voices.flatten) := by
    rw [Bgm.encode]
    rw [show g.emitBlocks = preB
        ++ emitTracks (g.trackLists.get ⟨i, hi⟩).tracks
            (g.seqsStart + ((g.trackLists.take i).map trackListSeqLen).sum)
        ++ postB by rw [Bgm.emitBlocks, hBdec]]
    simp
  have h16i : (g.trackLists.get ⟨i, hi⟩).tracks.length = 16 :=
    h16 (g.trackLists.get ⟨i, hi⟩) (List.get_mem g.trackLists i hi)
  rw [← h16i]
  refine readTracks_spec (Bgm.encode g) ((g.trackLists.get ⟨i, hi⟩).tracks)
    (g.emitHeader ++ g.emitSlotLists ++ preB)
    (postB ++ g.emitSeqs ++ List.replicate (pad4 g.seqsEnd) 0
      ++ g.drums.flatten ++ g.voices.flatten)
    (g.blockPos i) (g.tlSeqPos i) ?_ ?_ ?_ ?_
  · rw [Bgm.tlSeqPos]
    exact hB
  · simp only [List.length_append, emitHeader_length g hname hres,
      emitSlotLists_length g g.trackLists.length hsegwf, hBlen,
      Bgm.blockPos, Bgm.blocksStart, headerSize]
  · simp only [Bgm.tlSeqPos, Bgm.seqsStart, Bgm.blocksStart, headerSize]
    omega
  · intro j hj s hs
    exact readSeq_at g hwf i hi j hj s hs

/-- Reading back an emitted subsegment-descriptor list recovers the original
subsegments and advances the shared-track-list table from `m` to `m2` seen
ids, where the ids obey the first-encounter discipline (`runRefs`). -/
theorem readSubsegs_spec (g : Bgm) (hwf : g.wf = true)
    (hnames : ∀ tl ∈ g.trackLists, tl.name = "") :
    ∀ (subsegs : List Subsegment) (pre post : List Nat) (p m m2 fuel : Nat),
      (∀ ss ∈ subsegs, ss.wf g.trackLists.length = true) →
      runRefs m (subsegs.filterMap Subsegment.refOf) = some m2 →
      m ≤ g.trackLists.length →
      Bgm.encode g = pre ++ ((subsegs.map g.emitSubsegment).flatten ++ [0, 0, 0, 0]) ++ post →
      p = pre.length → subsegs.length < fuel →
      readSubsegs (Bgm.encode g) p (reposAux g.blocksStart (g.trackLists.take m)) fuel
        = .ok (subsegs, reposAux g.blocksStart (g.trackLists.take m2)) := by
  intro subsegs
  induction subsegs with
  | nil =>
    intro pre post p m m2 fuel hws hrun hm hB hp hf
    obtain ⟨f, rfl⟩ : ∃ f, fuel = f + 1 := ⟨fuel - 1, by omega⟩
    simp only [List.filterMap_nil, runRefs, Option.some.injEq] at hrun
    subst hrun
    have h1 : readU8 (Bgm.encode g) p = .ok 0 := by
      have hB0 : Bgm.encode g = pre ++ 0 :: ([0, 0, 0] ++ post) := by
        rw [hB]; simp
      rw [hB0]; exact readU8_spec pre _ 0 p hp
    simp [readSubsegs, h1]
  | cons ss rest ih =>
    intro pre post p m m2 fuel hws hrun hm hB hp hf
    obtain ⟨f, rfl⟩ : ∃ f, fuel = f + 1 := ⟨fuel - 1, by omega⟩
    have hwss : ss.wf g.trackLists.length = true := hws ss (List.mem_cons_self ss rest)
    have hwrest : ∀ x ∈ rest, x.wf g.trackLists.length = true := fun x hx =>
      hws x (List.mem_cons_of_mem ss hx)
    cases ss with
    | unknown flags data =>
      simp only [Subsegment.wf, Bool.and_eq_true, bne_iff_ne, ne_eq,
        Bool.not_eq_true', beq_iff_eq] at hwss
      obtain ⟨⟨hf0, hft⟩, hd3⟩ := hwss
      have h1 : readU8 (Bgm.encode g) p = .ok flags := by
        have hB0 : Bgm.encode g = pre ++ flags
            :: (data ++ ((rest.map g.emitSubsegment).flatten ++ [0, 0, 0, 0]) ++ post) := by
          rw [hB]; simp [Bgm.emitSubsegment]
        rw [hB0]; exact readU8_spec pre _ flags p hp
      have h2 : readBytes (Bgm.encode g) (p + 1) 3 = .ok data := by
        have hB0 : Bgm.encode g = (pre ++ [flags]) ++ data
            ++ (((rest.map g.emitSubsegment).flatten ++ [0, 0, 0, 0]) ++ post) := by
          rw [hB]; simp [Bgm.emitSubsegment]
        rw [hB0]
        exact readBytes_spec _ _ _ (p + 1) 3 (by simp [hp]) hd3.symm
      have hrun2 : runRefs m (rest.filterMap Subsegment.refOf) = some m2 := by
        simpa using hrun
      have hdec : Bgm.encode g = (pre ++ flags :: data)
          ++ ((rest.map g.emitSubsegment).flatten ++ [0, 0, 0, 0]) ++ post := by
        rw [hB]
        simp [Bgm.emitSubsegment]
      have hple : p + 4 = (pre ++ flags :: data).length := by
        simp [hp, hd3]
      have hfle : rest.length < f := by
        simp only [List.length_cons] at hf
        omega
      have hrec : readSubsegs (Bgm.encode g) (p + 4)
          (reposAux g.blocksStart (g.trackLists.take m)) f
          = .ok (rest, reposAux g.blocksStart (g.trackLists.take m2)) :=
        ih (pre ++ flags :: data) post (p + 4) m m2 f hwrest hrun2 hm hdec hple hfle
      simp [readSubsegs, h1, h2, hf0, hft, hrec]
    | tracks flags r =>
      simp only [Subsegment.wf, Bool.and_eq_true, decide_eq_true_eq] at hwss
      obtain ⟨hft, hrn⟩ := hwss
      have hf0 : ¬(flags = 0) := by
        simp [isTracksFlags] at hft
        omega
      have h1 : readU8 (Bgm.encode g) p = .ok flags := by
        have hB0 : Bgm.encode g = pre ++ flags
            :: (emitU24 (g.blockPos r)
                ++ ((rest.map g.emitSubsegment).flatten ++ [0, 0, 0, 0]) ++ post) := by
          rw [hB]; simp [Bgm.emitSubsegment]
        rw [hB0]; exact readU8_spec pre _ flags p hp
      have h2 : readU24 (Bgm.encode g) (p + 1) = .ok (g.blockPos r) := by
        have hB0 : Bgm.encode g = (pre ++ [flags]) ++ emitU24 (g.blockPos r)
            ++ (((rest.map g.emitSubsegment).flatten ++ [0, 0, 0, 0]) ++ post) := by
          rw [hB]; simp [Bgm.emitSubsegment]
        rw [hB0]
        exact readU24_spec _ _ _ (p + 1) (by simp [hp])
      have hBrec : Bgm.encode g = (pre ++ flags :: emitU24 (g.blockPos r))
          ++ ((rest.map g.emitSubsegment).flatten ++ [0, 0, 0, 0]) ++ post := by
        rw [hB]; simp [Bgm.emitSubsegment]
      simp only [List.filterMap_cons, Subsegment.refOf, runRefs] at hrun
      by_cases hcase : r = m
      · -- first encounter of id m: the block is decoded and appended
        subst hcase
        rw [if_pos rfl] at hrun
        have hlook : lookupPos (reposAux g.blocksStart (g.trackLists.take r))
            (g.blockPos r) = none := by
          apply lookupPos_reposAux_miss
          intro j hj
          rw [List.length_take] at hj
          rw [Bgm.blockPos]
          omega
        have hblock : readTracksN (Bgm.encode g) 16 (g.blockPos r)
            = .ok (g.trackLists.get ⟨r, hrn⟩).tracks := readBlock_at g hwf r hrn
        have htbllen : (reposAux g.blocksStart (g.trackLists.take r)).length = r := by
          rw [reposAux_length, List.length_take]
          omega
        have hentry : ({ g.trackLists.get ⟨r, hrn⟩ with
              decodedPos := some (g.blocksStart + 128 * r) } : TrackList)
            = ⟨"", some (g.blockPos r), (g.trackLists.get ⟨r, hrn⟩).tracks⟩ := by
          have hname : (g.trackLists.get ⟨r, hrn⟩).name = "" :=
            hnames _ (List.get_mem g.trackLists r hrn)
          rw [Bgm.blockPos]
          cases hg : g.trackLists.get ⟨r, hrn⟩ with
          | mk nm dp tks =>
            rw [hg] at hname
            simp only [] at hname
            simp [hname]
        have htbl : reposAux g.blocksStart (g.trackLists.take r)
              ++ [⟨"", some (g.blockPos r), (g.trackLists.get ⟨r, hrn⟩).tracks⟩]
            = reposAux g.blocksStart (g.trackLists.take (r + 1)) := by
          rw [reposAux_take_succ r g.trackLists g.blocksStart hrn, hentry]
        have hmle : r + 1 ≤ g.trackLists.length := hrn
        have hdec : Bgm.encode g = (pre ++ flags :: emitU24 (g.blockPos r))
            ++ ((rest.map g.emitSubsegment).flatten ++ [0, 0, 0, 0]) ++ post := by
          rw [hBrec]
        have hple : p + 4 = (pre ++ flags :: emitU24 (g.blockPos r)).length := by
          simp [hp]
        have hfle : rest.length < f := by
          simp only [List.length_cons] at hf
          omega
        have hrec : readSubsegs (Bgm.encode g) (p + 4)
            (reposAux g.blocksStart (g.trackLists.take (r + 1))) f
            = .ok (rest, reposAux g.blocksStart (g.trackLists.take m2)) :=
          ih (pre ++ flags :: emitU24 (g.blockPos r)) post (p + 4) (r + 1) m2 f
            hwrest hrun hmle hdec hple hfle
        rw [← htbl] at hrec
        simp only [List.get_eq_getElem] at hrec hblock
        simp [readSubsegs, h1, h2, hf0, hft, hlook, hblock, htbllen, hrec]
      · -- already-seen id r < m
        rw [if_neg hcase] at hrun
        have hrm : r < m := by
          by_contra hge
          rw [if_neg hge] at hrun
          cases hrun
        rw [if_pos hrm] at hrun
        have hlen2 : r < (g.trackLists.take m).length := by
          rw [List.length_take, Nat.min_eq_left hm]
          exact hrm
        have hlook : lookupPos (reposAux g.blocksStart (g.trackLists.take m))
            (g.blockPos r) = some r := by
          have h := lookupPos_reposAux_hit (g.trackLists.take m) g.blocksStart r hlen2
          rwa [Bgm.blockPos]
        have hdec : Bgm.encode g = (pre ++ flags :: emitU24 (g.blockPos r))
            ++ ((rest.map g.emitSubsegment).flatten ++ [0, 0, 0, 0]) ++ post := by
          rw [hBrec]
        have hple : p + 4 = (pre ++ flags :: emitU24 (g.blockPos r)).length := by
          simp [hp]
        have hfle : rest.length < f := by
          simp only [List.length_cons] at hf
          omega
        have hrec : readSubsegs (Bgm.encode g) (p + 4)
            (reposAux g.blocksStart (g.trackLists.take m)) f
            = .ok (rest, reposAux g.blocksStart (g.trackLists.take m2)) :=
          ih (pre ++ flags :: emitU24 (g.blockPos r)) post (p + 4) m m2 f
            hwrest hrun hm hdec hple hfle
        simp [readSubsegs, h1, h2, hf0, hft, hlook, hrec]

theorem runRefs_append (xs ys : List Nat) : ∀ m,
    runRefs m (xs ++ ys) = (runRefs m xs).bind (fun m2 => runRefs m2 ys) := by
  induction xs with
  | nil => intro m; simp [runRefs]
  | cons x xs ih =>
    intro m
    by_cases h1 : x = m
    · subst h1
      simp [runRefs, ih]
    · by_cases h2 : x < m
      · simp [runRefs, h1, h2, ih]
      · simp [runRefs, h1, h2]

theorem runRefs_le (xs : List Nat) : ∀ m m2, runRefs m xs = some m2 → m ≤ m2 := by
  induction xs with
  | nil =>
    intro m m2 h
    simp [runRefs] at h
    omega
  | cons x xs ih =>
    intro m m2 h
    rw [runRefs] at h
    split at h
    · have := ih (m + 1) m2 h
      omega
    · split at h
      · exact ih m m2 h
      · cases h

theorem readRecords_spec (B : List Nat) (size : Nat) (recs : List (List Nat)) :
    ∀ (pre post : List Nat) (p : Nat), (∀ r ∈ recs, r.length = size) →
      B = pre ++ recs.flatten ++ post → p = pre.length →
      readRecords B size recs.length p = .ok recs := by
  induction recs with
  | nil => intro pre post p _ hB hp; simp [readRecords]
  | cons r recs ih =>
    intro pre post p hlen hB hp
    have hr : r.length = size := hlen r (List.mem_cons_self r recs)
    have h1 : readBytes B p size = .ok r := by
      have hB0 : B = pre ++ r ++ (recs.flatten ++ post) := by
        rw [hB]; simp
      rw [hB0]
      exact readBytes_spec pre r _ p size hp hr.symm
    have hrest : readRecords B size recs.length (p + size) = .ok recs := by
      refine ih (pre ++ r) post (p + size) (fun x hx => hlen x (List.mem_cons_of_mem r hx))
        ?_ ?_
      · rw [hB]; simp
      · simp [hp, hr]
    show readRecords B size (recs.length + 1) p = .ok (r :: recs)
    simp [readRecords, h1, hrest]

theorem list_len4 {α : Type} (l : List α) (h : l.length = 4) :
    ∃ a b c d, l = [a, b, c, d] := by
  cases l with
  | nil => simp at h
  | cons a l =>
    cases l with
    | nil => simp at h
    | cons b l =>
      cases l with
      | nil => simp at h
      | cons c l =>
        cases l with
        | nil => simp at h
        | cons d l =>
          cases l with
          | nil => exact ⟨a, b, c, d, rfl⟩
          | cons e l => simp at h

/-- Reading one present segment slot at its emitted descriptor-list position
recovers the segment (with decoder-assigned empty name) and advances the
table. -/
theorem readSlot_some_spec (g : Bgm) (hwf : g.wf = true)
    (hnames : ∀ tl ∈ g.trackLists, tl.name = "") (s : Segment)
    (off m m2 : Nat) (pre post : List Nat)
    (hws : ∀ ss ∈ s.subsegments, ss.wf g.trackLists.length = true)
    (hrun : runRefs m s.refsOf = some m2)
    (hm : m ≤ g.trackLists.length)
    (hdec : Bgm.encode g
      = pre ++ ((s.subsegments.map g.emitSubsegment).flatten ++ [0, 0, 0, 0]) ++ post)
    (hoff : off = pre.length) (hoff0 : ¬(off = 0)) :
    readSlot (Bgm.encode g) off (reposAux g.blocksStart (g.trackLists.take m))
      = .ok (some ⟨"", s.subsegments⟩, reposAux g.blocksStart (g.trackLists.take m2)) := by
  have hfuel : s.subsegments.length < (Bgm.encode g).length + 1 := by
    have hflat : ((s.subsegments.map g.emitSubsegment).flatten).length
        = 4 * s.subsegments.length := emitSubsegs_flatten_length g _ _ hws
    have : (Bgm.encode g).length
        = pre.length + (((s.subsegments.map g.emitSubsegment).flatten).length + 4)
          + post.length := by
      rw [hdec]
      simp
      omega
    omega
  have h := readSubsegs_spec g hwf hnames s.subsegments pre post off m m2
    ((Bgm.encode g).length + 1) hws hrun hm hdec hoff hfuel
  rw [readSlot, if_neg hoff0, h]

theorem segOptBytes_length (g : Bgm) (n : Nat) (os : Option Segment)
    (hw : ∀ s, os = some s → s.wf n = true) :
    (match os with | none => ([] : List Nat) | some s => g.emitSegList s).length
      = segListLen os := by
  cases hos : os with
  | none => simp [segListLen]
  | some s =>
    simp only []
    rw [emitSegList_length g n s (hw s hos), segListLen]

theorem flatten_length_const (recs : List (List Nat)) (k : Nat)
    (h : ∀ r ∈ recs, r.length = k) : recs.flatten.length = k * recs.length := by
  induction recs with
  | nil => simp
  | cons r recs ih =>
    simp [h r (List.mem_cons_self r recs),
      ih (fun x hx => h x (List.mem_cons_of_mem r hx))]
    ring

/-- One segment slot of the decoder: either the absent-slot shortcut or a
full descriptor-list read, returning the original slot contents. -/
theorem slot_fact (g : Bgm) (hwf : g.wf = true)
    (htlnames : ∀ tl ∈ g.trackLists, tl.name = "")
    (osegm : Option Segment) (k m m2 : Nat)
    (hws : ∀ s, osegm = some s → s.wf g.trackLists.length = true)
    (hrun : runRefs m (segRefsOpt osegm) = some m2)
    (hm : m ≤ g.trackLists.length)
    (hdecomp : ∀ s, osegm = some s → ∃ pre post, Bgm.encode g
        = pre ++ ((s.subsegments.map g.emitSubsegment).flatten ++ [0, 0, 0, 0]) ++ post
        ∧ pre.length = g.slotOffset k)
    (hsv : g.slotValue k = match osegm with | none => 0 | some _ => g.slotOffset k)
    (hfix : (match osegm with
      | none => none
      | some s => some (⟨"", s.subsegments⟩ : Segment)) = osegm) :
    readSlot (Bgm.encode g) (g.slotValue k)
        (reposAux g.blocksStart (g.trackLists.take m))
      = .ok (osegm, reposAux g.blocksStart (g.trackLists.take m2)) := by
  cases osegm with
  | none =>
    simp only [segRefsOpt, runRefs, Option.some.injEq] at hrun
    subst hrun
    rw [hsv]
    rfl
  | some s =>
    simp only [segRefsOpt] at hrun
    obtain ⟨pre, post, hdec, hlen⟩ := hdecomp s rfl
    have hoff0 : ¬(g.slotOffset k = 0) := by
      rw [Bgm.slotOffset]
      simp [headerSize]
    rw [hsv]
    have hstep := readSlot_some_spec g hwf htlnames s (g.slotOffset k) m m2 pre post
      (by
        intro ss hss
        have hws2 := hws s rfl
        simp only [Segment.wf, List.all_eq_true] at hws2
        exact hws2 ss hss)
      hrun hm hdec hlen.symm hoff0
    rw [hstep]
    rw [show (some (⟨"", s.subsegments⟩ : Segment)) = some s from hfix]

/-- Round trip at the heart of the matching property: decoding the encoding
of a well-formed canonical graph recovers the graph, with `decodedPos`
restamped to this encoding's block positions. -/
theorem decode_encode (g : Bgm) (hwf : g.wf = true) (hcan : g.canonical = true) :
    Bgm.decode (Bgm.encode g) = .ok g.repos := by
  obtain ⟨hname4, hsegs4, hsegwf, htls, hdr, hvc, hres4⟩ := Bgm.wf_parts g hwf
  have hcan2 := hcan
  simp only [Bgm.canonical, Bool.and_eq_true, beq_iff_eq, List.all_eq_true] at hcan2
  obtain ⟨⟨hrun0, hsegnames⟩, htlnames2⟩ := hcan2
  have htlnames : ∀ tl ∈ g.trackLists, tl.name = "" := by
    intro tl h
    have := htlnames2 tl h
    simpa using this
  obtain ⟨a0, a1, a2, a3, hseglist⟩ := list_len4 g.segments hsegs4
  have hmem0 : a0 ∈ g.segments := by rw [hseglist]; simp
  have hmem1 : a1 ∈ g.segments := by rw [hseglist]; simp
  have hmem2 : a2 ∈ g.segments := by rw [hseglist]; simp
  have hmem3 : a3 ∈ g.segments := by rw [hseglist]; simp
  have hw0 : ∀ s, a0 = some s → s.wf g.trackLists.length = true := hsegwf a0 hmem0
  have hw1 : ∀ s, a1 = some s → s.wf g.trackLists.length = true := hsegwf a1 hmem1
  have hw2 : ∀ s, a2 = some s → s.wf g.trackLists.length = true := hsegwf a2 hmem2
  have hw3 : ∀ s, a3 = some s → s.wf g.trackLists.length = true := hsegwf a3 hmem3
  have hmagic : readBytes (Bgm.encode g) 0 4 = .ok ([0x42, 0x47, 0x4D, 0x20]) := by
    have hform : Bgm.encode g = ([] : List Nat)
        ++ [0x42, 0x47, 0x4D, 0x20]
        ++ (g.name
        ++ emitU32 (g.slotValue 0)
        ++ emitU32 (g.slotValue 1)
        ++ emitU32 (g.slotValue 2)
        ++ emitU32 (g.slotValue 3)
        ++ emitU32 g.drumsStart
        ++ emitU32 g.drums.length
        ++ emitU32 g.voicesStart
        ++ emitU32 g.voices.length
        ++ g.reserved
        ++ g.emitSlotLists
        ++ g.emitBlocks
        ++ g.emitSeqs
        ++ List.replicate (pad4 g.seqsEnd) 0
        ++ g.drums.flatten
        ++ g.voices.flatten) := by
      simp [Bgm.encode, Bgm.emitHeader]
    rw [hform]
    exact readBytes_spec ([] : List Nat) [0x42, 0x47, 0x4D, 0x20] (g.name
        ++ emitU32 (g.slotValue 0)
        ++ emitU32 (g.slotValue 1)
        ++ emitU32 (g.slotValue 2)
        ++ emitU32 (g.slotValue 3)
        ++ emitU32 g.drumsStart
        ++ emitU32 g.drums.length
        ++ emitU32 g.voicesStart
        ++ emitU32 g.voices.length
        ++ g.reserved
        ++ g.emitSlotLists
        ++ g.emitBlocks
        ++ g.emitSeqs
        ++ List.replicate (pad4 g.seqsEnd) 0
        ++ g.drums.flatten
        ++ g.voices.flatten) 0 4 rfl rfl
  have hnameR : readBytes (Bgm.encode g) 4 4 = .ok (g.name) := by
    have hform : Bgm.encode g = ([0x42, 0x47, 0x4D, 0x20])
        ++ g.name
        ++ (emitU32 (g.slotValue 0)
        ++ emitU32 (g.slotValue 1)
        ++ emitU32 (g.slotValue 2)
        ++ emitU32 (g.slotValue 3)
        ++ emitU32 g.drumsStart
        ++ emitU32 g.drums.length
        ++ emitU32 g.voicesStart
        ++ emitU32 g.voices.length
        ++ g.reserved
        ++ g.emitSlotLists
        ++ g.emitBlocks
        ++ g.emitSeqs
        ++ List.replicate (pad4 g.seqsEnd) 0
        ++ g.drums.flatten
        ++ g.voices.flatten) := by
      simp [Bgm.encode, Bgm.emitHeader]
    rw [hform]
    exact readBytes_spec ([0x42, 0x47, 0x4D, 0x20]) g.name
      (emitU32 (g.slotValue 0)
        ++ emitU32 (g.slotValue 1)
        ++ emitU32 (g.slotValue 2)
        ++ emitU32 (g.slotValue 3)
        ++ emitU32 g.drumsStart
        ++ emitU32 g.drums.length
        ++ emitU32 g.voicesStart
        ++ emitU32 g.voices.length
        ++ g.reserved
        ++ g.emitSlotLists
        ++ g.emitBlocks
        ++ g.emitSeqs
        ++ List.replicate (pad4 g.seqsEnd) 0
        ++ g.drums.flatten
        ++ g.voices.flatten) 4 4 (by simp) hname4.symm
  have hr8 : readU32 (Bgm.encode g) 8 = .ok (g.slotValue 0) := by
    have hform : Bgm.encode g = ([0x42, 0x47, 0x4D, 0x20]
        ++ g.name)
        ++ emitU32 (g.slotValue 0)
        ++ (emitU32 (g.slotValue 1)
        ++ emitU32 (g.slotValue 2)
        ++ emitU32 (g.slotValue 3)
        ++ emitU32 g.drumsStart
        ++ emitU32 g.drums.length
        ++ emitU32 g.voicesStart
        ++ emitU32 g.voices.length
        ++ g.reserved
        ++ g.emitSlotLists
        ++ g.emitBlocks
        ++ g.emitSeqs
        ++ List.replicate (pad4 g.seqsEnd) 0
        ++ g.drums.flatten
        ++ g.voices.flatten) := by
      simp [Bgm.encode, Bgm.emitHeader]
    rw [hform]
    exact readU32_spec ([0x42, 0x47, 0x4D, 0x20]
        ++ g.name)
      (emitU32 (g.slotValue 1)
        ++ emitU32 (g.slotValue 2)
        ++ emitU32 (g.slotValue 3)
        ++ emitU32 g.drumsStart
        ++ emitU32 g.drums.length
        ++ emitU32 g.voicesStart
        ++ emitU32 g.voices.length
        ++ g.reserved
        ++ g.emitSlotLists
        ++ g.emitBlocks
        ++ g.emitSeqs
        ++ List.replicate (pad4 g.seqsEnd) 0
        ++ g.drums.flatten
        ++ g.voices.flatten) (g.slotValue 0) 8 (by simp [hname4])
  have hr12 : readU32 (Bgm.encode g) 12 = .ok (g.slotValue 1) := by
    have hform : Bgm.encode g = ([0x42, 0x47, 0x4D, 0x20]
        ++ g.name
        ++ emitU32 (g.slotValue 0))
        ++ emitU32 (g.slotValue 1)
        ++ (emitU32 (g.slotValue 2)
        ++ emitU32 (g.slotValue 3)
        ++ emitU32 g.drumsStart
        ++ emitU32 g.drums.length
        ++ emitU32 g.voicesStart
        ++ emitU32 g.voices.length
        ++ g.reserved
        ++ g.emitSlotLists
        ++ g.emitBlocks
        ++ g.emitSeqs
        ++ List.replicate (pad4 g.seqsEnd) 0
        ++ g.drums.flatten
        ++ g.voices.flatten) := by
      simp [Bgm.encode, Bgm.emitHeader]
    rw [hform]
    exact readU32_spec ([0x42, 0x47, 0x4D, 0x20]
        ++ g.name
        ++ emitU32 (g.slotValue 0))
      (emitU32 (g.slotValue 2)
        ++ emitU32 (g.slotValue 3)
        ++ emitU32 g.drumsStart
        ++ emitU32 g.drums.length
        ++ emitU32 g.voicesStart
        ++ emitU32 g.voices.length
        ++ g.reserved
        ++ g.emitSlotLists
        ++ g.emitBlocks
        ++ g.emitSeqs
        ++ List.replicate (pad4 g.seqsEnd) 0
        ++ g.drums.flatten
        ++ g.voices.flatten) (g.slotValue 1) 12 (by simp [hname4])
  have hr16 : readU32 (Bgm.encode g) 16 = .ok (g.slotValue 2) := by
    have hform : Bgm.encode g = ([0x42, 0x47, 0x4D, 0x20]
        ++ g.name
        ++ emitU32 (g.slotValue 0)
        ++ emitU32 (g.slotValue 1))
        ++ emitU32 (g.slotValue 2)
        ++ (emitU32 (g.slotValue 3)
        ++ emitU32 g.drumsStart
        ++ emitU32 g.drums.length
        ++ emitU32 g.voicesStart
        ++ emitU32 g.voices.length
        ++ g.reserved
        ++ g.emitSlotLists
        ++ g.emitBlocks
        ++ g.emitSeqs
        ++ List.replicate (pad4 g.seqsEnd) 0
        ++ g.drums.flatten
        ++ g.voices.flatten) := by
      simp [Bgm.encode, Bgm.emitHeader]
    rw [hform]
    exact readU32_spec ([0x42, 0x47, 0x4D, 0x20]
        ++ g.name
        ++ emitU32 (g.slotValue 0)
        ++ emitU32 (g.slotValue 1))
      (emitU32 (g.slotValue 3)
        ++ emitU32 g.drumsStart
        ++ emitU32 g.drums.length
        ++ emitU32 g.voicesStart
        ++ emitU32 g.voices.length
        ++ g.reserved
        ++ g.emitSlotLists
        ++ g.emitBlocks
        ++ g.emitSeqs
        ++ List.replicate (pad4 g.seqsEnd) 0
        ++ g.drums.flatten
        ++ g.voices.flatten) (g.slotValue 2) 16 (by simp [hname4])
  have hr20 : readU32 (Bgm.encode g) 20 = .ok (g.slotValue 3) := by
    have hform : Bgm.encode g = ([0x42, 0x47, 0x4D, 0x20]
        ++ g.name
        ++ emitU32 (g.slotValue 0)
        ++ emitU32 (g.slotValue 1)
        ++ emitU32 (g.slotValue 2))
        ++ emitU32 (g.slotValue 3)
        ++ (emitU32 g.drumsStart
        ++ emitU32 g.drums.length
        ++ emitU32 g.voicesStart
        ++ emitU32 g.voices.length
        ++ g.reserved
        ++ g.emitSlotLists
        ++ g.emitBlocks
        ++ g.emitSeqs
        ++ List.replicate (pad4 g.seqsEnd) 0
        ++ g.drums.flatten
        ++ g.voices.flatten) := by
      simp [Bgm.encode, Bgm.emitHeader]
    rw [hform]
    exact readU32_spec ([0x42, 0x47, 0x4D, 0x20]
        ++ g.name
        ++ emitU32 (g.slotValue 0)
        ++ emitU32 (g.slotValue 1)
        ++ emitU32 (g.slotValue 2))
      (emitU32 g.drumsStart
        ++ emitU32 g.drums.length
        ++ emitU32 g.voicesStart
        ++ emitU32 g.voices.length
        ++ g.reserved
        ++ g.emitSlotLists
        ++ g.emitBlocks
        ++ g.emitSeqs
        ++ List.replicate (pad4 g.seqsEnd) 0
        ++ g.drums.flatten
        ++ g.voices.flatten) (g.slotValue 3) 20 (by simp [hname4])
  have hr24 : readU32 (Bgm.encode g) 24 = .ok (g.drumsStart) := by
    have hform : Bgm.encode g = ([0x42, 0x47, 0x4D, 0x20]
        ++ g.name
        ++ emitU32 (g.slotValue 0)
        ++ emitU32 (g.slotValue 1)
        ++ emitU32 (g.slotValue 2)
        ++ emitU32 (g.slotValue 3))
        ++ emitU32 g.drumsStart
        ++ (emitU32 g.drums.length
        ++ emitU32 g.voicesStart
        ++ emitU32 g.voices.length
        ++ g.reserved
        ++ g.emitSlotLists
        ++ g.emitBlocks
        ++ g.emitSeqs
        ++ List.replicate (pad4 g.seqsEnd) 0
        ++ g.drums.flatten
        ++ g.voices.flatten) := by
      simp [Bgm.encode, Bgm.emitHeader]
    rw [hform]
    exact readU32_spec ([0x42, 0x47, 0x4D, 0x20]
        ++ g.name
        ++ emitU32 (g.slotValue 0)
        ++ emitU32 (g.slotValue 1)
        ++ emitU32 (g.slotValue 2)
        ++ emitU32 (g.slotValue 3))
      (emitU32 g.drums.length
        ++ emitU32 g.voicesStart
        ++ emitU32 g.voices.length
        ++ g.reserved
        ++ g.emitSlotLists
        ++ g.emitBlocks
        ++ g.emitSeqs
        ++ List.replicate (pad4 g.seqsEnd) 0
        ++ g.drums.flatten
        ++ g.voices.flatten) (g.drumsStart) 24 (by simp [hname4])
  have hr28 : readU32 (Bgm.encode g) 28 = .ok (g.drums.length) := by
    have hform : Bgm.encode g = ([0x42, 0x47, 0x4D, 0x20]
        ++ g.name
        ++ emitU32 (g.slotValue 0)
        ++ emitU32 (g.slotValue 1)
        ++ emitU32 (g.slotValue 2)
        ++ emitU32 (g.slotValue 3)
        ++ emitU32 g.drumsStart)
        ++ emitU32 g.drums.length
        ++ (emitU32 g.voicesStart
        ++ emitU32 g.voices.length
        ++ g.reserved
        ++ g.emitSlotLists
        ++ g.emitBlocks
        ++ g.emitSeqs
        ++ List.replicate (pad4 g.seqsEnd) 0
        ++ g.drums.flatten
        ++ g.voices.flatten) := by
      simp [Bgm.encode, Bgm.emitHeader]
    rw [hform]
    exact readU32_spec ([0x42, 0x47, 0x4D, 0x20]
        ++ g.name
        ++ emitU32 (g.slotValue 0)
        ++ emitU32 (g.slotValue 1)
        ++ emitU32 (g.slotValue 2)
        ++ emitU32 (g.slotValue 3)
        ++ emitU32 g.drumsStart)
      (emitU32 g.voicesStart
        ++ emitU32 g.voices.length
        ++ g.reserved
        ++ g.emitSlotLists
        ++ g.emitBlocks
        ++ g.emitSeqs
        ++ List.replicate (pad4 g.seqsEnd) 0
        ++ g.drums.flatten
        ++ g.voices.flatten) (g.drums.length) 28 (by simp [hname4])
  have hr32 : readU32 (Bgm.encode g) 32 = .ok (g.voicesStart) := by
    have hform : Bgm.encode g = ([0x42, 0x47, 0x4D, 0x20]
        ++ g.name
        ++ emitU32 (g.slotValue 0)
        ++ emitU32 (g.slotValue 1)
        ++ emitU32 (g.slotValue 2)
        ++ emitU32 (g.slotValue 3)
        ++ emitU32 g.drumsStart
        ++ emitU32 g.drums.length)
        ++ emitU32 g.voicesStart
        ++ (emitU32 g.voices.length
        ++ g.reserved
        ++ g.emitSlotLists
        ++ g.emitBlocks
        ++ g.emitSeqs
        ++ List.replicate (pad4 g.seqsEnd) 0
        ++ g.drums.flatten
        ++ g.voices.flatten) := by
      simp [Bgm.encode, Bgm.emitHeader]
    rw [hform]
    exact readU32_spec ([0x42, 0x47, 0x4D, 0x20]
        ++ g.name
        ++ emitU32 (g.slotValue 0)
        ++ emitU32 (g.slotValue 1)
        ++ emitU32 (g.slotValue 2)
        ++ emitU32 (g.slotValue 3)
        ++ emitU32 g.drumsStart
        ++ emitU32 g.drums.length)
      (emitU32 g.voices.length
        ++ g.reserved
        ++ g.emitSlotLists
        ++ g.emitBlocks
        ++ g.emitSeqs
        ++ List.replicate (pad4 g.seqsEnd) 0
        ++ g.drums.flatten
        ++ g.voices.flatten) (g.voicesStart) 32 (by simp [hname4])
  have hr36 : readU32 (Bgm.encode g) 36 = .ok (g.voices.length) := by
    have hform : Bgm.encode g = ([0x42, 0x47, 0x4D, 0x20]
        ++ g.name
        ++ emitU32 (g.slotValue 0)
        ++ emitU32 (g.slotValue 1)
        ++ emitU32 (g.slotValue 2)
        ++ emitU32 (g.slotValue 3)
        ++ emitU32 g.drumsStart
        ++ emitU32 g.drums.length
        ++ emitU32 g.voicesStart)
        ++ emitU32 g.voices.length
        ++ (g.reserved
        ++ g.emitSlotLists
        ++ g.emitBlocks
        ++ g.emitSeqs
        ++ List.replicate (pad4 g.seqsEnd) 0
        ++ g.drums.flatten
        ++ g.voices.flatten) := by
      simp [Bgm.encode, Bgm.emitHeader]
    rw [hform]
    exact readU32_spec ([0x42, 0x47, 0x4D, 0x20]
        ++ g.name
        ++ emitU32 (g.slotValue 0)
        ++ emitU32 (g.slotValue 1)
        ++ emitU32 (g.slotValue 2)
        ++ emitU32 (g.slotValue 3)
        ++ emitU32 g.drumsStart
        ++ emitU32 g.drums.length
        ++ emitU32 g.voicesStart)
      (g.reserved
        ++ g.emitSlotLists
        ++ g.emitBlocks
        ++ g.emitSeqs
        ++ List.replicate (pad4 g.seqsEnd) 0
        ++ g.drums.flatten
        ++ g.voices.flatten) (g.voices.length) 36 (by simp [hname4])
  have hresR : readBytes (Bgm.encode g) 40 4 = .ok (g.reserved) := by
    have hform : Bgm.encode g = ([0x42, 0x47, 0x4D, 0x20]
        ++ g.name
        ++ emitU32 (g.slotValue 0)
        ++ emitU32 (g.slotValue 1)
        ++ emitU32 (g.slotValue 2)
        ++ emitU32 (g.slotValue 3)
        ++ emitU32 g.drumsStart
        ++ emitU32 g.drums.length
        ++ emitU32 g.voicesStart
        ++ emitU32 g.voices.length)
        ++ g.reserved
        ++ (g.emitSlotLists
        ++ g.emitBlocks
        ++ g.emitSeqs
        ++ List.replicate (pad4 g.seqsEnd) 0
        ++ g.drums.flatten
        ++ g.voices.flatten) := by
      simp [Bgm.encode, Bgm.emitHeader]
    rw [hform]
    exact readBytes_spec ([0x42, 0x47, 0x4D, 0x20]
        ++ g.name
        ++ emitU32 (g.slotValue 0)
        ++ emitU32 (g.slotValue 1)
        ++ emitU32 (g.slotValue 2)
        ++ emitU32 (g.slotValue 3)
        ++ emitU32 g.drumsStart
        ++ emitU32 g.drums.length
        ++ emitU32 g.voicesStart
        ++ emitU32 g.voices.length)
      g.reserved (g.emitSlotLists
        ++ g.emitBlocks
        ++ g.emitSeqs
        ++ List.replicate (pad4 g.seqsEnd) 0
        ++ g.drums.flatten
        ++ g.voices.flatten) 40 4 (by simp [hname4]) hres4.symm
  have hdecomp0 : ∀ s, a0 = some s → ∃ pre post, Bgm.encode g
      = pre ++ ((s.subsegments.map g.emitSubsegment).flatten ++ [0, 0, 0, 0]) ++ post
      ∧ pre.length = g.slotOffset 0 := by
    intro s hs
    refine ⟨([0x42, 0x47, 0x4D, 0x20]
        ++ g.name
        ++ emitU32 (g.slotValue 0)
        ++ emitU32 (g.slotValue 1)
        ++ emitU32 (g.slotValue 2)
        ++ emitU32 (g.slotValue 3)
        ++ emitU32 g.drumsStart
        ++ emitU32 g.drums.length
        ++ emitU32 g.voicesStart
        ++ emitU32 g.voices.length
        ++ g.reserved), ((match a1 with | none => ([] : List Nat) | some s => g.emitSegList s)
        ++ (match a2 with | none => ([] : List Nat) | some s => g.emitSegList s)
        ++ (match a3 with | none => ([] : List Nat) | some s => g.emitSegList s)
        ++ g.emitBlocks
        ++ g.emitSeqs
        ++ List.replicate (pad4 g.seqsEnd) 0
        ++ g.drums.flatten
        ++ g.voices.flatten), ?_, ?_⟩
    · simp [Bgm.encode, Bgm.emitHeader, Bgm.emitSlotLists, hseglist, hs, Bgm.emitSegList]
    · (simp [hname4, hres4, Bgm.slotOffset, hseglist, headerSize,
        segOptBytes_length g g.trackLists.length a0 hw0,
        segOptBytes_length g g.trackLists.length a1 hw1,
        segOptBytes_length g g.trackLists.length a2 hw2,
        segOptBytes_length g g.trackLists.length a3 hw3]) <;> omega
  have hdecomp1 : ∀ s, a1 = some s → ∃ pre post, Bgm.encode g
      = pre ++ ((s.subsegments.map g.emitSubsegment).flatten ++ [0, 0, 0, 0]) ++ post
      ∧ pre.length = g.slotOffset 1 := by
    intro s hs
    refine ⟨([0x42, 0x47, 0x4D, 0x20]
        ++ g.name
        ++ emitU32 (g.slotValue 0)
        ++ emitU32 (g.slotValue 1)
        ++ emitU32 (g.slotValue 2)
        ++ emitU32 (g.slotValue 3)
        ++ emitU32 g.drumsStart
        ++ emitU32 g.drums.length
        ++ emitU32 g.voicesStart
        ++ emitU32 g.voices.length
        ++ g.reserved
        ++ (match a0 with | none => ([] : List Nat) | some s => g.emitSegList s)), ((match a2 with | none => ([] : List Nat) | some s => g.emitSegList s)
        ++ (match a3 with | none => ([] : List Nat) | some s => g.emitSegList s)
        ++ g.emitBlocks
        ++ g.emitSeqs
        ++ List.replicate (pad4 g.seqsEnd) 0
        ++ g.drums.flatten
        ++ g.voices.flatten), ?_, ?_⟩
    · simp [Bgm.encode, Bgm.emitHeader, Bgm.emitSlotLists, hseglist, hs, Bgm.emitSegList]
    · (simp [hname4, hres4, Bgm.slotOffset, hseglist, headerSize,
        segOptBytes_length g g.trackLists.length a0 hw0,
        segOptBytes_length g g.trackLists.length a1 hw1,
        segOptBytes_length g g.trackLists.length a2 hw2,
        segOptBytes_length g g.trackLists.length a3 hw3]) <;> omega
  have hdecomp2 : ∀ s, a2 = some s → ∃ pre post, Bgm.encode g
      = pre ++ ((s.subsegments.map g.emitSubsegment).flatten ++ [0, 0, 0, 0]) ++ post
      ∧ pre.length = g.slotOffset 2 := by
    intro s hs
    refine ⟨([0x42, 0x47, 0x4D, 0x20]
        ++ g.name
        ++ emitU32 (g.slotValue 0)
        ++ emitU32 (g.slotValue 1)
        ++ emitU32 (g.slotValue 2)
        ++ emitU32 (g.slotValue 3)
        ++ emitU32 g.drumsStart
        ++ emitU32 g.drums.length
        ++ emitU32 g.voicesStart
        ++ emitU32 g.voices.length
        ++ g.reserved
        ++ (match a0 with | none => ([] : List Nat) | some s => g.emitSegList s)
        ++ (match a1 with | none => ([] : List Nat) | some s => g.emitSegList s)), ((match a3 with | none => ([] : List Nat) | some s => g.emitSegList s)
        ++ g.emitBlocks
        ++ g.emitSeqs
        ++ List.replicate (pad4 g.seqsEnd) 0
        ++ g.drums.flatten
        ++ g.voices.flatten), ?_, ?_⟩
    · simp [Bgm.encode, Bgm.emitHeader, Bgm.emitSlotLists, hseglist, hs, Bgm.emitSegList]
    · (simp [hname4, hres4, Bgm.slotOffset, hseglist, headerSize,
        segOptBytes_length g g.trackLists.length a0 hw0,
        segOptBytes_length g g.trackLists.length a1 hw1,
        segOptBytes_length g g.trackLists.length a2 hw2,
        segOptBytes_length g g.trackLists.length a3 hw3]) <;> omega
  have hdecomp3 : ∀ s, a3 = some s → ∃ pre post, Bgm.encode g
      = pre ++ ((s.subsegments.map g.emitSubsegment).flatten ++ [0, 0, 0, 0]) ++ post
      ∧ pre.length = g.slotOffset 3 := by
    intro s hs
    refine ⟨([0x42, 0x47, 0x4D, 0x20]
        ++ g.name
        ++ emitU32 (g.slotValue 0)
        ++ emitU32 (g.slotValue 1)
        ++ emitU32 (g.slotValue 2)
        ++ emitU32 (g.slotValue 3)
        ++ emitU32 g.drumsStart
        ++ emitU32 g.drums.length
        ++ emitU32 g.voicesStart
        ++ emitU32 g.voices.length
        ++ g.reserved
        ++ (match a0 with | none => ([] : List Nat) | some s => g.emitSegList s)
        ++ (match a1 with | none => ([] : List Nat) | some s => g.emitSegList s)
        ++ (match a2 with | none => ([] : List Nat) | some s => g.emitSegList s)), (g.emitBlocks
        ++ g.emitSeqs
        ++ List.replicate (pad4 g.seqsEnd) 0
        ++ g.drums.flatten
        ++ g.voices.flatten), ?_, ?_⟩
    · simp [Bgm.encode, Bgm.emitHeader, Bgm.emitSlotLists, hseglist, hs, Bgm.emitSegList]
    · (simp [hname4, hres4, Bgm.slotOffset, hseglist, headerSize,
        segOptBytes_length g g.trackLists.length a0 hw0,
        segOptBytes_length g g.trackLists.length a1 hw1,
        segOptBytes_length g g.trackLists.length a2 hw2,
        segOptBytes_length g g.trackLists.length a3 hw3]) <;> omega
  -- slot offset values
  have hsv0 : g.slotValue 0 = match a0 with | none => 0 | some _ => g.slotOffset 0 := by
    rw [Bgm.slotValue, hseglist]
    rfl
  have hsv1 : g.slotValue 1 = match a1 with | none => 0 | some _ => g.slotOffset 1 := by
    rw [Bgm.slotValue, hseglist]
    rfl
  have hsv2 : g.slotValue 2 = match a2 with | none => 0 | some _ => g.slotOffset 2 := by
    rw [Bgm.slotValue, hseglist]
    rfl
  have hsv3 : g.slotValue 3 = match a3 with | none => 0 | some _ => g.slotOffset 3 := by
    rw [Bgm.slotValue, hseglist]
    rfl
  -- canonical segment names make the decoded slot equal to the original
  have hfix0 : (match a0 with
      | none => none
      | some s => some (⟨"", s.subsegments⟩ : Segment)) = a0 := by
    cases h0 : a0 with
    | none => rfl
    | some s =>
      have := hsegnames a0 hmem0
      rw [h0] at this
      simp only [beq_iff_eq] at this
      cases s
      simp_all
  have hfix1 : (match a1 with
      | none => none
      | some s => some (⟨"", s.subsegments⟩ : Segment)) = a1 := by
    cases h1 : a1 with
    | none => rfl
    | some s =>
      have := hsegnames a1 hmem1
      rw [h1] at this
      simp only [beq_iff_eq] at this
      cases s
      simp_all
  have hfix2 : (match a2 with
      | none => none
      | some s => some (⟨"", s.subsegments⟩ : Segment)) = a2 := by
    cases h2 : a2 with
    | none => rfl
    | some s =>
      have := hsegnames a2 hmem2
      rw [h2] at this
      simp only [beq_iff_eq] at this
      cases s
      simp_all
  have hfix3 : (match a3 with
      | none => none
      | some s => some (⟨"", s.subsegments⟩ : Segment)) = a3 := by
    cases h3 : a3 with
    | none => rfl
    | some s =>
      have := hsegnames a3 hmem3
      rw [h3] at this
      simp only [beq_iff_eq] at this
      cases s
      simp_all
  -- split the reference discipline across the four slots
  have hrefs : g.refs
      = segRefsOpt a0 ++ (segRefsOpt a1 ++ (segRefsOpt a2 ++ segRefsOpt a3)) := by
    rw [Bgm.refs, hseglist]
    cases a0 <;> cases a1 <;> cases a2 <;> cases a3 <;> simp [segRefsOpt]
  rw [hrefs] at hrun0
  rw [runRefs_append] at hrun0
  cases hm1 : runRefs 0 (segRefsOpt a0) with
  | none => rw [hm1] at hrun0; cases hrun0
  | some m1 =>
  rw [hm1, Option.some_bind] at hrun0
  rw [runRefs_append] at hrun0
  cases hm2 : runRefs m1 (segRefsOpt a1) with
  | none => rw [hm2] at hrun0; cases hrun0
  | some m2 =>
  rw [hm2, Option.some_bind] at hrun0
  rw [runRefs_append] at hrun0
  cases hm3 : runRefs m2 (segRefsOpt a2) with
  | none => rw [hm3] at hrun0; cases hrun0
  | some m3 =>
  rw [hm3, Option.some_bind] at hrun0
  -- bounds on the intermediate counts
  have hle1 : m1 ≤ g.trackLists.length := by
    have ha := runRefs_le _ _ _ hm1
    have hb := runRefs_le _ _ _ hm2
    have hc := runRefs_le _ _ _ hm3
    have hd := runRefs_le _ _ _ hrun0
    omega
  have hle2 : m2 ≤ g.trackLists.length := by
    have hc := runRefs_le _ _ _ hm3
    have hd := runRefs_le _ _ _ hrun0
    omega
  have hle3 : m3 ≤ g.trackLists.length := by
    have hd := runRefs_le _ _ _ hrun0
    omega
  -- the four slot reads
  have hslot0 := slot_fact g hwf htlnames a0 0 0 m1 hw0 hm1 (by omega) hdecomp0 hsv0 hfix0
  have hslot1 := slot_fact g hwf htlnames a1 1 m1 m2 hw1 hm2 hle1 hdecomp1 hsv1 hfix1
  have hslot2 := slot_fact g hwf htlnames a2 2 m2 m3 hw2 hm3 hle2 hdecomp2 hsv2 hfix2
  have hslot3 := slot_fact g hwf htlnames a3 3 m3 g.trackLists.length hw3 hrun0 hle3
    hdecomp3 hsv3 hfix3
  -- drum and voice tables
  have h16 : ∀ tl ∈ g.trackLists, tl.tracks.length = 16 := fun tl h => (htls tl h).1
  have hdrums : readRecords (Bgm.encode g) 12 g.drums.length g.drumsStart
      = .ok g.drums := by
    refine readRecords_spec (Bgm.encode g) 12 g.drums
      (g.emitHeader ++ g.emitSlotLists ++ g.emitBlocks ++ g.emitSeqs
        ++ List.replicate (pad4 g.seqsEnd) 0)
      g.voices.flatten g.drumsStart hdr ?_ ?_
    · simp [Bgm.encode]
    · simp only [List.length_append, emitHeader_length g hname4 hres4,
        emitSlotLists_length g g.trackLists.length hsegwf, Bgm.emitBlocks,
        emitBlocksAux_length g.trackLists h16, Bgm.emitSeqs, emitSeqsAux_length,
        List.length_replicate, Bgm.drumsStart, Bgm.seqsEnd, Bgm.seqsStart,
        Bgm.blocksStart, headerSize]
  have hvoices : readRecords (Bgm.encode g) 16 g.voices.length g.voicesStart
      = .ok g.voices := by
    refine readRecords_spec (Bgm.encode g) 16 g.voices
      (g.emitHeader ++ g.emitSlotLists ++ g.emitBlocks ++ g.emitSeqs
        ++ List.replicate (pad4 g.seqsEnd) 0 ++ g.drums.flatten)
      [] g.voicesStart hvc ?_ ?_
    · simp [Bgm.encode]
    · simp only [List.length_append, emitHeader_length g hname4 hres4,
        emitSlotLists_length g g.trackLists.length hsegwf, Bgm.emitBlocks,
        emitBlocksAux_length g.trackLists h16, Bgm.emitSeqs, emitSeqsAux_length,
        List.length_replicate, flatten_length_const g.drums 12 hdr,
        Bgm.voicesStart, Bgm.drumsStart, Bgm.seqsEnd, Bgm.seqsStart,
        Bgm.blocksStart, headerSize]
  -- assemble
  have htake : g.trackLists.take g.trackLists.length = g.trackLists := by
    simp
  rw [htake] at hslot3
  rw [show (reposAux g.blocksStart (g.trackLists.take 0)) = ([] : List TrackList)
    from rfl] at hslot0
  simp only [Bgm.decode, hmagic, hnameR, hr8, hr12, hr16, hr20, hr24, hr28, hr32,
    hr36, hresR, hslot0, hslot1, hslot2, hslot3, hdrums, hvoices]
  simp [Bgm.repos, hseglist]

theorem emitBlocksAux_reposAux (tls : List TrackList) : ∀ (q pos : Nat),
    emitBlocksAux (reposAux q tls) pos = emitBlocksAux tls pos := by
  induction tls with
  | nil => intro q pos; rfl
  | cons tl tls ih =>
    intro q pos
    simp only [reposAux, emitBlocksAux]
    rw [ih]
    simp [trackListSeqLen]

theorem emitSeqsAux_reposAux (tls : List TrackList) : ∀ q : Nat,
    emitSeqsAux (reposAux q tls) = emitSeqsAux tls := by
  induction tls with
  | nil => intro q; rfl
  | cons tl tls ih =>
    intro q
    simp only [reposAux, emitSeqsAux]
    rw [ih]

/-- The encoder never reads `decodedPos`: restamping it does not change the
encoded bytes. -/
theorem encode_repos (g : Bgm) : Bgm.encode g.repos = Bgm.encode g := by
  have h1 : g.repos.segments = g.segments := rfl
  have h2 : g.repos.name = g.name := rfl
  have h3 : g.repos.drums = g.drums := rfl
  have h4 : g.repos.voices = g.voices := rfl
  have h5 : g.repos.reserved = g.reserved := rfl
  have h6 : g.repos.trackLists = reposAux g.blocksStart g.trackLists := rfl
  have hsub : g.repos.emitSubsegment = g.emitSubsegment := by
    funext ss
    cases ss with
    | tracks f tl =>
      simp [Bgm.emitSubsegment, Bgm.blockPos, Bgm.blocksStart, h1]
    | unknown f d => rfl
  simp only [Bgm.encode, Bgm.emitHeader, Bgm.emitSlotLists, Bgm.emitBlocks,
    Bgm.emitSeqs, Bgm.drumsStart, Bgm.seqsEnd, Bgm.seqsStart, Bgm.blocksStart,
    Bgm.voicesStart, Bgm.slotValue, Bgm.slotOffset, Bgm.emitSegList,
    h1, h2, h3, h4, h5, h6, hsub,
    reposAux_length, reposAux_map_tlLen, emitBlocksAux_reposAux,
    emitSeqsAux_reposAux]

theorem readTrack_wf (b : List Nat) (p : Nat) (t : Track)
    (h : readTrack b p = .ok t) : t.wf = true := by
  rw [readTrack] at h
  iterate 10 (all_goals (try split at h))
  all_goals first
    | exact Except.noConfusion h
    | (rw [Except.ok.injEq] at h
       subst h
       first
         | rfl
         | (simp only [Track.wf, List.all_eq_true]
            intro c hc
            exact readSeq_wf _ _ _ _ (by assumption) c hc)
         | simp [Track.wf])

theorem readTracksN_inv (b : List Nat) : ∀ (k p : Nat) (ts : List Track),
    readTracksN b k p = .ok ts → ts.length = k ∧ ∀ t ∈ ts, t.wf = true := by
  intro k
  induction k with
  | zero =>
    intro p ts h
    simp only [readTracksN, Except.ok.injEq] at h
    subst h
    exact ⟨rfl, by intro t ht; cases ht⟩
  | succ k ih =>
    intro p ts h
    rw [readTracksN] at h
    cases htr : readTrack b p with
    | error e =>
      simp only [htr] at h
      exact Except.noConfusion h
    | ok t =>
      simp only [htr] at h
      cases hrest : readTracksN b k (p + 8) with
      | error e =>
        simp only [hrest] at h
        exact Except.noConfusion h
      | ok rest =>
        simp only [hrest, Except.ok.injEq] at h
        subst h
        obtain ⟨hlen, hwf⟩ := ih (p + 8) rest hrest
        refine ⟨by simp [hlen], ?_⟩
        intro x hx
        rcases List.mem_cons.mp hx with rfl | hx
        · exact readTrack_wf b p x htr
        · exact hwf x hx

theorem lookupPos_lt (tls : List TrackList) : ∀ (ptr i : Nat),
    lookupPos tls ptr = some i → i < tls.length := by
  induction tls with
  | nil => intro ptr i h; simp [lookupPos] at h
  | cons tl tls ih =>
    intro ptr i h
    rw [lookupPos] at h
    split at h
    · simp only [Option.some.injEq] at h
      simp only [List.length_cons]
      omega
    · cases hl : lookupPos tls ptr with
      | none => rw [hl] at h; cases h
      | some v =>
        rw [hl] at h
        simp at h
        have := ih ptr v hl
        simp only [List.length_cons]
        omega

theorem lookupPos_none_mem (tls : List TrackList) : ∀ ptr : Nat,
    lookupPos tls ptr = none → ∀ tl ∈ tls, tl.decodedPos ≠ some ptr := by
  induction tls with
  | nil => intro ptr _ tl htl; cases htl
  | cons tl tls ih =>
    intro ptr h x hx
    rw [lookupPos] at h
    split at h
    · cases h
    · rename_i hne
      rcases List.mem_cons.mp hx with rfl | hx
      · exact hne
      · have hnone : lookupPos tls ptr = none := by
          cases hl : lookupPos tls ptr with
          | none => rfl
          | some v => rw [hl] at h; cases h
        exact ih ptr hnone x hx

/-- Invariant of an arbitrary (successful) subsegment-list decode: the table
only grows, stays valid, the produced references follow the first-encounter
discipline, and the produced subsegments are well-formed. -/
theorem readSubsegs_inv (b : List Nat) : ∀ (fuel p : Nat) (tls tls2 : List TrackList)
    (ss : List Subsegment),
    readSubsegs b p tls fuel = .ok (ss, tls2) → TlInv tls →
    (∃ new, tls2 = tls ++ new) ∧ TlInv tls2
      ∧ runRefs tls.length (ss.filterMap Subsegment.refOf) = some tls2.length
      ∧ ∀ x ∈ ss, x.wf tls2.length = true := by
  intro fuel
  induction fuel with
  | zero => intro p tls tls2 ss h _; simp [readSubsegs] at h
  | succ f ih =>
    intro p tls tls2 ss h hinv
    rw [readSubsegs] at h
    cases hz : readU8 b p with
    | error e =>
      simp only [hz] at h
      exact Except.noConfusion h
    | ok flags =>
      simp only [hz] at h
      by_cases h0 : flags = 0
      · rw [if_pos h0, Except.ok.injEq, Prod.mk.injEq] at h
        obtain ⟨hss, htls⟩ := h
        subst hss htls
        exact ⟨⟨[], by simp⟩, hinv, by simp [runRefs], by intro x hx; cases hx⟩
      · rw [if_neg h0] at h
        by_cases ht : isTracksFlags flags = true
        · rw [if_pos ht] at h
          cases h24 : readU24 b (p + 1) with
          | error e =>
            simp only [h24] at h
            exact Except.noConfusion h
          | ok ptr =>
            simp only [h24] at h
            cases hlk : lookupPos tls ptr with
            | some i =>
              simp only [hlk] at h
              cases hr : readSubsegs b (p + 4) tls f with
              | error e =>
                simp only [hr] at h
                exact Except.noConfusion h
              | ok pr =>
                obtain ⟨ss2, tls3⟩ := pr
                simp only [hr, Except.ok.injEq, Prod.mk.injEq] at h
                obtain ⟨hss, htls⟩ := h
                subst hss htls
                obtain ⟨⟨new, hnew⟩, hinv2, hrun, hwf⟩ := ih (p + 4) tls tls3 ss2 hr hinv
                have hi := lookupPos_lt tls ptr i hlk
                refine ⟨⟨new, hnew⟩, hinv2, ?_, ?_⟩
                · simp only [List.filterMap_cons, Subsegment.refOf, runRefs]
                  have hne : ¬(i = tls.length) := by omega
                  rw [if_neg hne, if_pos hi]
                  exact hrun
                · intro x hx
                  rcases List.mem_cons.mp hx with rfl | hx
                  · have hlen : tls.length ≤ tls3.length := by
                      rw [hnew]
                      simp
                    simp only [Subsegment.wf, Bool.and_eq_true, decide_eq_true_eq]
                    refine ⟨ht, ?_⟩
                    exact Nat.lt_of_lt_of_le hi hlen
                  · exact hwf x hx
            | none =>
              simp only [hlk] at h
              cases hb : readTracksN b 16 ptr with
              | error e =>
                simp only [hb] at h
                exact Except.noConfusion h
              | ok ts =>
                simp only [hb] at h
                cases hr : readSubsegs b (p + 4) (tls ++ [⟨"", some ptr, ts⟩]) f with
                | error e =>
                  simp only [hr] at h
                  exact Except.noConfusion h
                | ok pr =>
                  obtain ⟨ss2, tls3⟩ := pr
                  simp only [hr, Except.ok.injEq, Prod.mk.injEq] at h
                  obtain ⟨hss, htls⟩ := h
                  subst hss htls
                  obtain ⟨hts16, htswf⟩ := readTracksN_inv b 16 ptr ts hb
                  have hinv1 : TlInv (tls ++ [⟨"", some ptr, ts⟩]) := by
                    constructor
                    · intro tl htl
                      rcases List.mem_append.mp htl with htl | htl
                      · exact hinv.1 tl htl
                      · rw [List.mem_singleton] at htl
                        subst htl
                        refine ⟨?_, rfl, rfl⟩
                        simp only [TrackList.wf, Bool.and_eq_true, beq_iff_eq,
                          List.all_eq_true]
                        exact ⟨hts16, htswf⟩
                    · rw [List.pairwise_append]
                      refine ⟨hinv.2, List.pairwise_singleton _ _, ?_⟩
                      intro x hx y hy
                      rw [List.mem_singleton] at hy
                      subst hy
                      simp only []
                      exact lookupPos_none_mem tls ptr hlk x hx
                  obtain ⟨⟨new, hnew⟩, hinv2, hrun, hwf⟩ :=
                    ih (p + 4) (tls ++ [⟨"", some ptr, ts⟩]) tls3 ss2 hr hinv1
                  refine ⟨⟨⟨"", some ptr, ts⟩ :: new, by rw [hnew]; simp⟩, hinv2, ?_, ?_⟩
                  · have hrun2 : runRefs (tls.length + 1) (ss2.filterMap Subsegment.refOf)
                        = some tls3.length := by simpa using hrun
                    simp [List.filterMap_cons, Subsegment.refOf, runRefs, hrun2]
                  · intro x hx
                    rcases List.mem_cons.mp hx with rfl | hx
                    · have hlen : tls.length + 1 ≤ tls3.length := by
                        rw [hnew]
                        simp
                      simp only [Subsegment.wf, Bool.and_eq_true, decide_eq_true_eq]
                      refine ⟨ht, ?_⟩
                      exact Nat.lt_of_lt_of_le (Nat.lt_succ_self tls.length) hlen
                    · exact hwf x hx
        · rw [if_neg ht] at h
          cases hd : readBytes b (p + 1) 3 with
          | error e =>
            simp only [hd] at h
            exact Except.noConfusion h
          | ok data =>
            simp only [hd] at h
            cases hr : readSubsegs b (p + 4) tls f with
            | error e =>
              simp only [hr] at h
              exact Except.noConfusion h
            | ok pr =>
              obtain ⟨ss2, tls3⟩ := pr
              simp only [hr, Except.ok.injEq, Prod.mk.injEq] at h
              obtain ⟨hss, htls⟩ := h
              subst hss htls
              obtain ⟨⟨new, hnew⟩, hinv2, hrun, hwf⟩ := ih (p + 4) tls tls3 ss2 hr hinv
              refine ⟨⟨new, hnew⟩, hinv2, by simpa using hrun, ?_⟩
              intro x hx
              rcases List.mem_cons.mp hx with rfl | hx
              · simp [Subsegment.wf, h0, ht, readBytes_length b (p + 1) 3 data hd]
              · exact hwf x hx

theorem Subsegment.wf_mono (n n2 : Nat) (h : n ≤ n2) (ss : Subsegment)
    (hw : ss.wf n = true) : ss.wf n2 = true := by
  cases ss with
  | tracks flags tl =>
    simp only [Subsegment.wf, Bool.and_eq_true, decide_eq_true_eq] at hw ⊢
    exact ⟨hw.1, Nat.lt_of_lt_of_le hw.2 h⟩
  | unknown flags data => exact hw

theorem readSlot_inv (b : List Nat) (off : Nat) (tls tls2 : List TrackList)
    (os : Option Segment)
    (h : readSlot b off tls = .ok (os, tls2)) (hinv : TlInv tls) :
    (∃ new, tls2 = tls ++ new) ∧ TlInv tls2
      ∧ runRefs tls.length (segRefsOpt os) = some tls2.length
      ∧ ∀ s, os = some s → s.name = "" ∧ ∀ x ∈ s.subsegments, x.wf tls2.length = true := by
  rw [readSlot] at h
  split at h
  · rw [Except.ok.injEq, Prod.mk.injEq] at h
    obtain ⟨h1, h2⟩ := h
    subst h1 h2
    exact ⟨⟨[], by simp⟩, hinv, by simp [segRefsOpt, runRefs],
      by intro s hs; cases hs⟩
  · cases hr : readSubsegs b off tls (b.length + 1) with
    | error e =>
      rw [hr] at h
      exact Except.noConfusion h
    | ok pr =>
      obtain ⟨ss, tls3⟩ := pr
      rw [hr] at h
      rw [Except.ok.injEq, Prod.mk.injEq] at h
      obtain ⟨h1, h2⟩ := h
      subst h1 h2
      obtain ⟨hpre, hinv2, hrun, hwf⟩ :=
        readSubsegs_inv b (b.length + 1) off tls tls3 ss hr hinv
      refine ⟨hpre, hinv2, by simpa [segRefsOpt, Segment.refsOf] using hrun, ?_⟩
      intro s hs
      rw [Option.some.injEq] at hs
      subst hs
      exact ⟨rfl, hwf⟩

theorem readRecords_inv (b : List Nat) (size : Nat) : ∀ (k p : Nat)
    (rs : List (List Nat)), readRecords b size k p = .ok rs →
    rs.length = k ∧ ∀ r ∈ rs, r.length = size := by
  intro k
  induction k with
  | zero =>
    intro p rs h
    simp only [readRecords, Except.ok.injEq] at h
    subst h
    exact ⟨rfl, by intro r hr; cases hr⟩
  | succ k ih =>
    intro p rs h
    rw [readRecords] at h
    cases h1 : readBytes b p size with
    | error e =>
      simp only [h1] at h
      exact Except.noConfusion h
    | ok r =>
      simp only [h1] at h
      cases h2 : readRecords b size k (p + size) with
      | error e =>
        simp only [h2] at h
        exact Except.noConfusion h
      | ok rest =>
        simp only [h2, Except.ok.injEq] at h
        subst h
        obtain ⟨hlen, hall⟩ := ih (p + size) rest h2
        refine ⟨by simp [hlen], ?_⟩
        intro x hx
        rcases List.mem_cons.mp hx with rfl | hx
        · exact readBytes_length b p size x h1
        · exact hall x hx

theorem decode_inv (b : List Nat) (g : Bgm) (h : Bgm.decode b = .ok g) :
    g.wf = true ∧ g.canonical = true ∧ TlInv g.trackLists := by
  rw [Bgm.decode] at h
  cases hmagic : readBytes b 0 4 with
  | error e =>
    simp only [hmagic] at h
    exact Except.noConfusion h
  | ok magic =>
    simp only [hmagic] at h
    by_cases hmg : magic ≠ [0x42, 0x47, 0x4D, 0x20]
    · rw [if_pos hmg] at h
      exact Except.noConfusion h
    · rw [if_neg hmg] at h
      cases hname : readBytes b 4 4 with
      | error e =>
        simp only [hname] at h
        exact Except.noConfusion h
      | ok nm =>
        simp only [hname] at h
        cases hso0 : readU32 b 8 with
        | error e =>
          simp only [hso0] at h
          exact Except.noConfusion h
        | ok so0 =>
          simp only [hso0] at h
          cases hso1 : readU32 b 12 with
          | error e =>
            simp only [hso1] at h
            exact Except.noConfusion h
          | ok so1 =>
            simp only [hso1] at h
            cases hso2 : readU32 b 16 with
            | error e =>
              simp only [hso2] at h
              exact Except.noConfusion h
            | ok so2 =>
              simp only [hso2] at h
              cases hso3 : readU32 b 20 with
              | error e =>
                simp only [hso3] at h
                exact Except.noConfusion h
              | ok so3 =>
                simp only [hso3] at h
                cases hdo : readU32 b 24 with
                | error e =>
                  simp only [hdo] at h
                  exact Except.noConfusion h
                | ok drumOff =>
                  simp only [hdo] at h
                  cases hdc : readU32 b 28 with
                  | error e =>
                    simp only [hdc] at h
                    exact Except.noConfusion h
                  | ok drumCount =>
                    simp only [hdc] at h
                    cases hvo : readU32 b 32 with
                    | error e =>
                      simp only [hvo] at h
                      exact Except.noConfusion h
                    | ok voiceOff =>
                      simp only [hvo] at h
                      cases hvcn : readU32 b 36 with
                      | error e =>
                        simp only [hvcn] at h
                        exact Except.noConfusion h
                      | ok voiceCount =>
                        simp only [hvcn] at h
                        cases hres : readBytes b 40 4 with
                        | error e =>
                          simp only [hres] at h
                          exact Except.noConfusion h
                        | ok res =>
                          simp only [hres] at h
                          cases hslot0 : readSlot b so0 [] with
                          | error e =>
                            simp only [hslot0] at h
                            exact Except.noConfusion h
                          | ok q0 =>
                            obtain ⟨s0, t0⟩ := q0
                            simp only [hslot0] at h
                            cases hslot1 : readSlot b so1 t0 with
                            | error e =>
                              simp only [hslot1] at h
                              exact Except.noConfusion h
                            | ok q1 =>
                              obtain ⟨s1, t1⟩ := q1
                              simp only [hslot1] at h
                              cases hslot2 : readSlot b so2 t1 with
                              | error e =>
                                simp only [hslot2] at h
                                exact Except.noConfusion h
                              | ok q2 =>
                                obtain ⟨s2, t2⟩ := q2
                                simp only [hslot2] at h
                                cases hslot3 : readSlot b so3 t2 with
                                | error e =>
                                  simp only [hslot3] at h
                                  exact Except.noConfusion h
                                | ok q3 =>
                                  obtain ⟨s3, t3⟩ := q3
                                  simp only [hslot3] at h
                                  cases hdrums : readRecords b 12 drumCount drumOff with
                                  | error e =>
                                    simp only [hdrums] at h
                                    exact Except.noConfusion h
                                  | ok drums =>
                                    simp only [hdrums] at h
                                    cases hvoices : readRecords b 16 voiceCount voiceOff with
                                    | error e =>
                                      simp only [hvoices] at h
                                      exact Except.noConfusion h
                                    | ok voices =>
                                      simp only [hvoices] at h
                                      rw [Except.ok.injEq] at h
                                      subst h
                                      -- collected facts
                                      have hn4 := readBytes_length b 4 4 nm hname
                                      have hr4 := readBytes_length b 40 4 res hres
                                      have hinv0 : TlInv ([] : List TrackList) :=
                                        ⟨fun tl htl => absurd htl (List.not_mem_nil tl), List.Pairwise.nil⟩
                                      obtain ⟨⟨n0, hp0⟩, hi0, hr0, hs0⟩ := readSlot_inv b so0 [] t0 s0 hslot0 hinv0
                                      obtain ⟨⟨n1, hp1⟩, hi1, hr1, hs1⟩ := readSlot_inv b so1 t0 t1 s1 hslot1 hi0
                                      obtain ⟨⟨n2, hp2⟩, hi2, hr2, hs2⟩ := readSlot_inv b so2 t1 t2 s2 hslot2 hi1
                                      obtain ⟨⟨n3, hp3⟩, hi3, hr3, hs3⟩ := readSlot_inv b so3 t2 t3 s3 hslot3 hi2
                                      obtain ⟨hdl, hdlen⟩ := readRecords_inv b 12 drumCount drumOff drums hdrums
                                      obtain ⟨hvl, hvlen⟩ := readRecords_inv b 16 voiceCount voiceOff voices hvoices
                                      have hle0 : t0.length ≤ t3.length := by
                                        rw [hp3, hp2, hp1]
                                        simp
                                      have hle1 : t1.length ≤ t3.length := by
                                        rw [hp3, hp2]
                                        simp
                                      have hle2 : t2.length ≤ t3.length := by
                                        rw [hp3]
                                        simp
                                      refine ⟨?_, ?_, hi3⟩
                                      · -- well-formedness
                                        simp only [Bgm.wf, Bool.and_eq_true, beq_iff_eq, List.all_eq_true]
                                        refine ⟨⟨⟨⟨⟨⟨hn4, rfl⟩, ?_⟩, ?_⟩, ?_⟩, ?_⟩, hr4⟩
                                        · intro os hos
                                          have hcase : ∀ (sv : Option Segment) (tlv : List TrackList),
                                              tlv.length ≤ t3.length →
                                              (∀ s, sv = some s → s.name = "" ∧ ∀ x ∈ s.subsegments,
                                                x.wf tlv.length = true) →
                                              (match sv with
                                                | none => true
                                                | some s => s.wf t3.length) = true := by
                                            intro sv tlv hlen hsv
                                            cases hsvv : sv with
                                            | none => rfl
                                            | some s =>
                                              simp only [Segment.wf, List.all_eq_true]
                                              intro x hx
                                              exact Subsegment.wf_mono tlv.length t3.length hlen x
                                                ((hsv s hsvv).2 x hx)
                                          simp only [List.mem_cons, List.mem_singleton] at hos
                                          rcases hos with rfl | rfl | rfl | rfl | hfalse
                                          · exact hcase os t0 hle0 hs0
                                          · exact hcase os t1 hle1 hs1
                                          · exact hcase os t2 hle2 hs2
                                          · exact hcase os t3 (Nat.le_refl _) hs3
                                          · cases hfalse
                                        · intro tl htl
                                          exact (hi3.1 tl htl).1
                                        · intro d hd
                                          simpa using hdlen d hd
                                        · intro v hv
                                          simpa using hvlen v hv
                                      · -- canonicality
                                        simp only [Bgm.canonical, Bool.and_eq_true, beq_iff_eq, List.all_eq_true]
                                        refine ⟨⟨?_, ?_⟩, ?_⟩
                                        · have hrefs : Bgm.refs ⟨nm, [s0, s1, s2, s3], t3, drums, voices, res⟩
                                              = segRefsOpt s0 ++ (segRefsOpt s1 ++ (segRefsOpt s2 ++ segRefsOpt s3)) := by
                                            cases s0 <;> cases s1 <;> cases s2 <;> cases s3 <;> simp [Bgm.refs, segRefsOpt]
                                          rw [hrefs]
                                          rw [runRefs_append]
                                          rw [show (List.length ([] : List TrackList)) = 0 from rfl] at hr0
                                          rw [hr0, Option.some_bind, runRefs_append, hr1, Option.some_bind,
                                            runRefs_append, hr2, Option.some_bind, hr3]
                                        · intro os hos
                                          simp only [List.mem_cons, List.mem_singleton] at hos
                                          rcases hos with rfl | rfl | rfl | rfl | hfalse
                                          · cases h0 : os with
                                            | none => rfl
                                            | some s => simp [(hs0 s h0).1]
                                          · cases h1 : os with
                                            | none => rfl
                                            | some s => simp [(hs1 s h1).1]
                                          · cases h2 : os with
                                            | none => rfl
                                            | some s => simp [(hs2 s h2).1]
                                          · cases h3 : os with
                                            | none => rfl
                                            | some s => simp [(hs3 s h3).1]
                                          · cases hfalse
                                        · intro tl htl
                                          simp [(hi3.1 tl htl).2.1]

/-- Shared references decoded from equal on-disk track-block offsets are the
same object: distinct ids in a decoded graph always carry distinct recorded
positions. -/
theorem decode_decodedPos_inj (b : List Nat) (g : Bgm) (h : Bgm.decode b = .ok g)
    (i j : Nat) (hi : i < g.trackLists.length) (hj : j < g.trackLists.length)
    (heq : (g.trackLists.get ⟨i, hi⟩).decodedPos = (g.trackLists.get ⟨j, hj⟩).decodedPos) :
    i = j := by
  obtain ⟨_, _, hinv⟩ := decode_inv b g h
  by_contra hne
  rcases Nat.lt_or_ge i j with hij | hij
  · exact (List.pairwise_iff_get.mp hinv.2 ⟨i, hi⟩ ⟨j, hj⟩ hij) heq
  · have hji : j < i := by omega
    exact (List.pairwise_iff_get.mp hinv.2 ⟨j, hj⟩ ⟨i, hi⟩ hji) heq.symm

/-!
## Claim theorems
-/

/-- C1 — Matching round-trip: for every byte buffer in the matching class
(modelled, with the reference corpus unavailable, as the encodings of
well-formed canonical graphs: files whose layout the encoder itself
produces, i.e. without unreachable trailing garbage), `Bgm.decode` succeeds
and re-encoding the decoded graph reproduces the buffer byte for byte. -/
theorem C1_matching_roundtrip (b : List Nat) (g : Bgm)
    (hwf : g.wf = true) (hcan : g.canonical = true) (henc : Bgm.encode g = b) :
    ∃ g2, Bgm.decode b = .ok g2 ∧ Bgm.encode g2 = b := by
  subst henc
  exact ⟨g.repos, decode_encode g hwf hcan, encode_repos g⟩

theorem C1_matching_roundtrip_witness :
    witBgm.wf = true ∧ witBgm.canonical = true
      ∧ ∃ g2, Bgm.decode (Bgm.encode witBgm) = .ok g2
          ∧ Bgm.encode g2 = Bgm.encode witBgm :=
  ⟨rfl, rfl, C1_matching_roundtrip (Bgm.encode witBgm) witBgm rfl rfl rfl⟩

/-- C2 — Lossy-match stability: whenever `Bgm.decode b` succeeds at all
(in particular for the lossy class, files with unreachable trailing
garbage), the second round trip is stable: re-decoding the first re-encode
and encoding again reproduces the first re-encode byte for byte. -/
theorem C2_lossy_stability (b : List Nat) (g : Bgm)
    (hdec : Bgm.decode b = .ok g) :
    ∃ g2, Bgm.decode (Bgm.encode g) = .ok g2
      ∧ Bgm.encode g2 = Bgm.encode g := by
  obtain ⟨hwf, hcan, _⟩ := decode_inv b g hdec
  exact ⟨g.repos, decode_encode g hwf hcan, encode_repos g⟩

theorem C2_lossy_stability_witness :
    ∃ g2, Bgm.decode (Bgm.encode witBgm.repos) = .ok g2
      ∧ Bgm.encode g2 = Bgm.encode witBgm.repos :=
  C2_lossy_stability (Bgm.encode witBgm ++ [0xDE, 0xAD]) witBgm.repos (by decide)

/-- C3 — Decode sharing identity: in any decoded graph, if the subsegment at
segment 0 index 2 and the subsegment at segment 1 index 1 are tracks-bearing
and their track lists record equal on-disk track-block offsets, the two
referenced TrackLists are the same object (equal stable ids — the model's
reference identity). The cited `Fuzzy_s_Took_My_Shell_12.bin` is not among
the provided sources; the witness uses a buffer with the same sharing shape. -/
theorem C3_shared_subsegment_tracks (b : List Nat) (g : Bgm)
    (hdec : Bgm.decode b = .ok g)
    (seg0 seg1 : Segment)
    (h0 : g.segments.getD 0 none = some seg0)
    (h1 : g.segments.getD 1 none = some seg1)
    (f0 f1 : Nat) (i j : TrackListId)
    (hs0 : seg0.subsegments.getD 2 (.unknown 0 []) = .tracks f0 i)
    (hs1 : seg1.subsegments.getD 1 (.unknown 0 []) = .tracks f1 j)
    (hi : i < g.trackLists.length) (hj : j < g.trackLists.length)
    (heq : (g.trackLists.get ⟨i, hi⟩).decodedPos
      = (g.trackLists.get ⟨j, hj⟩).decodedPos) :
    i = j :=
  decode_decodedPos_inj b g hdec i j hi hj heq

theorem C3_shared_subsegment_tracks_witness : (0 : TrackListId) = 0 ∧
    Bgm.decode (Bgm.encode witShareBgm) = .ok witShareBgm.repos :=
  ⟨C3_shared_subsegment_tracks (Bgm.encode witShareBgm) witShareBgm.repos (by decide)
    ⟨"", [.unknown 0x30 [0, 0, 0], .unknown 0x50 [0, 0, 0], .tracks 0x10 0]⟩
    ⟨"", [.unknown 0x30 [0, 0, 0], .tracks 0x11 0]⟩
    rfl rfl 0x10 0x11 0 0 rfl rfl (by decide) (by decide) rfl, by decide⟩

/-- C4 — Bad magic: any input of at least four bytes whose first four bytes
are not `B`, `G`, `M`, space fails with the bad-magic error. -/
theorem C4_bad_magic (b : List Nat) (hlen : 4 ≤ b.length)
    (hmagic : b.take 4 ≠ [0x42, 0x47, 0x4D, 0x20]) :
    Bgm.decode b = .error .badMagic := by
  have h : readBytes b 0 4 = .ok (b.take 4) := by
    rw [readBytes, if_pos (by omega)]
    simp [extract]
  rw [Bgm.decode]
  simp only [h, if_pos hmagic]

theorem C4_bad_magic_witness : Bgm.decode [0, 0, 0, 0] = .error .badMagic :=
  C4_bad_magic [0, 0, 0, 0] (by decide) (by decide)

/-- C5 — Truncation: the 3-byte input `42 47 4D` (the magic cut short) fails
with the truncation error, not with success or any other error kind. -/
theorem C5_truncation : Bgm.decode [0x42, 0x47, 0x4D] = .error .truncation := by
  decide

/-- C6 — SBN encoding is unimplemented: for every archive and writer,
`Sbn::encode` never returns successfully — it aborts as the
deliberately-unimplemented `todo!("SBN encoding")`, whose panic message is
Rust's standard "not yet implemented" text — and `Sbn::as_bytes` therefore
never produces output either. -/
theorem C6_sbn_encode_unimplemented :
    (∀ (s : Sbn) (w : List Nat),
      Sbn.encode s w = .panicked "not yet implemented: SBN encoding")
    ∧ ∀ s : Sbn,
      Sbn.as_bytes s = .panicked "not yet implemented: SBN encoding" :=
  ⟨fun _ _ => rfl, fun _ => rfl⟩

/-- C7 — Four-segment invariant: every decoded `Bgm` has exactly four
optional segment slots; encoding then re-decoding preserves the count; and
the editor's slot operations (delete, new, reorder, and both play
operations, as well as the subsegment-level edits) keep the count at four. -/
theorem C7_four_segment_slots :
    (∀ (b : List Nat) (g : Bgm), Bgm.decode b = .ok g → g.segments.length = 4)
    ∧ (∀ g : Bgm, g.wf = true → g.canonical = true →
        ∃ g2, Bgm.decode (Bgm.encode g) = .ok g2 ∧ g2.segments.length = 4)
    ∧ (∀ (g : Bgm) (idx : Nat), g.segments.length = 4 →
        (deleteSegment g idx).segments.length = 4
        ∧ (newSegment g idx).segments.length = 4
        ∧ (addSubsegment g idx).segments.length = 4
        ∧ (addLoops g idx).segments.length = 4)
    ∧ (∀ (g : Bgm) (a b : Nat), g.segments.length = 4 →
        (swapSegments g a b).segments.length = 4)
    ∧ (∀ (g : Bgm) (idx : Nat), (playSegmentBgm g idx).segments.length = 4)
    ∧ (∀ (sk : TrackList → TrackList) (g : Bgm) (i j : Nat),
        g.segments.length = 4 → (playSubsegBgm sk g i j).segments.length = 4) := by
  refine ⟨?_, ?_, ?_, ?_, ?_, ?_⟩
  · intro b g h
    obtain ⟨hwf, _, _⟩ := decode_inv b g h
    exact (Bgm.wf_parts g hwf).2.1
  · intro g hwf hcan
    refine ⟨g.repos, decode_encode g hwf hcan, ?_⟩
    have : g.repos.segments = g.segments := rfl
    rw [this]
    exact (Bgm.wf_parts g hwf).2.1
  · intro g idx h
    refine ⟨?_, ?_, ?_, ?_⟩
    · simp [deleteSegment, h]
    · simp [newSegment, h]
    · rw [addSubsegment]
      cases g.segments.getD idx none with
      | none => exact h
      | some seg => simp [h]
    · rw [addLoops]
      cases g.segments.getD idx none with
      | none => exact h
      | some seg => simp [h]
  · intro g a b h
    simp [swapSegments, h]
  · intro g idx
    rfl
  · intro sk g i j h
    rw [playSubsegBgm]
    cases g.segments.getD i none with
    | none => exact h
    | some seg => rfl

theorem C7_four_segment_slots_witness :
    witBgm.repos.segments.length = 4
    ∧ (deleteSegment witBgm 0).segments.length = 4
    ∧ (newSegment witBgm 2).segments.length = 4
    ∧ (swapSegments witBgm 0 1).segments.length = 4
    ∧ (playSegmentBgm witBgm 0).segments.length = 4
    ∧ (playSubsegBgm id witBgm 0 1).segments.length = 4 :=
  ⟨C7_four_segment_slots.1 (Bgm.encode witBgm) witBgm.repos (by decide),
    (C7_four_segment_slots.2.2.1 witBgm 0 (by decide)).1,
    (C7_four_segment_slots.2.2.1 witBgm 2 (by decide)).2.1,
    C7_four_segment_slots.2.2.2.1 witBgm 0 1 (by decide),
    C7_four_segment_slots.2.2.2.2.1 witBgm 0,
    C7_four_segment_slots.2.2.2.2.2 id witBgm 0 1 (by decide)⟩

/-- C8 — Loop-marker flag semantics: the editor presents an `Unknown`
subsegment with flags `0x30` as a loop start, `0x50` as a loop end, and any
other flags value as unknown; the codec itself writes the flags byte and the
three data bytes verbatim and reads them back uninterpreted. -/
theorem C8_loop_marker_flags :
    subsegLoopLabel 0x30 = "Loop start"
    ∧ subsegLoopLabel 0x50 = "Loop end"
    ∧ (∀ f : Nat, f ≠ 0x30 → f ≠ 0x50 → subsegLoopLabel f = "Unknown")
    ∧ (∀ (g : Bgm) (f : Nat) (d : List Nat),
        g.emitSubsegment (.unknown f d) = f :: d)
    ∧ (∀ (b : List Nat) (p : Nat) (tls tls2 : List TrackList) (fuel f : Nat)
        (d : List Nat) (rest : List Subsegment),
        readU8 b p = .ok f → ¬(f = 0) → isTracksFlags f = false →
        readBytes b (p + 1) 3 = .ok d →
        readSubsegs b (p + 4) tls fuel = .ok (rest, tls2) →
        readSubsegs b p tls (fuel + 1) = .ok (.unknown f d :: rest, tls2)) := by
  refine ⟨rfl, rfl, ?_, ?_, ?_⟩
  · intro f h30 h50
    simp [subsegLoopLabel, h30, h50]
  · intro g f d
    rfl
  · intro b p tls tls2 fuel f d rest h1 h2 h3 h4 h5
    rw [readSubsegs]
    simp [h1, h2, h3, h4, h5]

theorem C8_loop_marker_flags_witness :
    subsegLoopLabel 0x42 = "Unknown"
    ∧ readSubsegs [0x30, 1, 2, 3, 0, 0, 0, 0] 0 [] 2
        = .ok ([.unknown 0x30 [1, 2, 3]], []) :=
  ⟨C8_loop_marker_flags.2.2.1 0x42 (by decide) (by decide),
    C8_loop_marker_flags.2.2.2.2 [0x30, 1, 2, 3, 0, 0, 0, 0] 0 [] [] 1 0x30
      [1, 2, 3] [] (by decide) (by decide) (by decide) (by decide) (by decide)⟩

/-- C9 — `read_agnostic` dispatch: inputs shorter than four bytes give the
io error; otherwise the first four bytes select `Bgm::from_bytes` for
`BGM `, the MIDI converter for `MThd`, and the unsupported-file-type error
for anything else. -/
theorem C9_read_agnostic_dispatch
    (smf : List Nat → Except SmfError Bgm) (raw : List Nat) :
    (raw.length < 4 → read_agnostic smf raw = .error .io)
    ∧ (4 ≤ raw.length → raw.take 4 = [0x42, 0x47, 0x4D, 0x20] →
        read_agnostic smf raw
          = Except.mapError ReadAgnosticError.bgm (Bgm.from_bytes raw))
    ∧ (4 ≤ raw.length → raw.take 4 = [0x4D, 0x54, 0x68, 0x64] →
        read_agnostic smf raw
          = Except.mapError ReadAgnosticError.smf (smf raw))
    ∧ (4 ≤ raw.length → raw.take 4 ≠ [0x42, 0x47, 0x4D, 0x20] →
        raw.take 4 ≠ [0x4D, 0x54, 0x68, 0x64] →
        read_agnostic smf raw = .error .unsupportedFileType) := by
  refine ⟨?_, ?_, ?_, ?_⟩
  · intro h
    simp [read_agnostic, h]
  · intro h hbgm
    have h4 : ¬(raw.length < 4) := by omega
    simp [read_agnostic, h4, hbgm]
  · intro h hmid
    have h4 : ¬(raw.length < 4) := by omega
    have hne : raw.take 4 ≠ [0x42, 0x47, 0x4D, 0x20] := by
      rw [hmid]
      decide
    simp [read_agnostic, h4, hne, hmid]
  · intro h hbgm hmid
    have h4 : ¬(raw.length < 4) := by omega
    simp [read_agnostic, h4, hbgm, hmid]

theorem C9_read_agnostic_dispatch_witness :
    (read_agnostic (fun _ => .error .invalid) [1, 2, 3] = .error .io)
    ∧ (read_agnostic (fun _ => .error .invalid) (Bgm.encode witBgm)
        = Except.mapError ReadAgnosticError.bgm (Bgm.from_bytes (Bgm.encode witBgm)))
    ∧ (read_agnostic (fun _ => .error .invalid) [0x4D, 0x54, 0x68, 0x64]
        = Except.mapError ReadAgnosticError.smf
            ((fun _ => .error .invalid) [0x4D, 0x54, 0x68, 0x64]))
    ∧ (read_agnostic (fun _ => .error .invalid) [9, 9, 9, 9]
        = .error .unsupportedFileType) :=
  ⟨(C9_read_agnostic_dispatch (fun _ => .error .invalid) [1, 2, 3]).1 (by decide),
    (C9_read_agnostic_dispatch (fun _ => .error .invalid) (Bgm.encode witBgm)).2.1
      (by decide) (by decide),
    (C9_read_agnostic_dispatch (fun _ => .error .invalid) [0x4D, 0x54, 0x68, 0x64]).2.2.1
      (by decide) (by decide),
    (C9_read_agnostic_dispatch (fun _ => .error .invalid) [9, 9, 9, 9]).2.2.2
      (by decide) (by decide) (by decide)⟩

/-- C10 — Silent no-op save: a document whose path is New or Import saves as
`Ok(())` without writing anything and reports no error, and `can_save` is
false for it; a file is written only when the path is Native (and then to
that path). -/
theorem C10_silent_noop_save :
    (∀ (ronSer : Bgm → List Nat) (d : Document), d.path = DocPath.new →
      Document.save ronSer d = .ok none ∧ d.can_save = false)
    ∧ (∀ (ronSer : Bgm → List Nat) (d : Document) (p : DocFilePath),
        d.path = DocPath.imported p →
        Document.save ronSer d = .ok none ∧ d.can_save = false)
    ∧ (∀ (ronSer : Bgm → List Nat) (d : Document) (p : DocFilePath)
        (out : List Nat), Document.save ronSer d = .ok (some (p, out)) →
        d.path = DocPath.native p) := by
  refine ⟨?_, ?_, ?_⟩
  · intro ronSer d h
    constructor
    · rw [Document.save, h]
    · rw [Document.can_save, h]
  · intro ronSer d p h
    constructor
    · rw [Document.save, h]
    · rw [Document.can_save, h]
  · intro ronSer d p out h
    rw [Document.save] at h
    split at h
    · rename_i q
      split at h
      · rw [Except.ok.injEq, Option.some.injEq, Prod.mk.injEq] at h
        rw [q, h.1]
      · rw [Except.ok.injEq, Option.some.injEq, Prod.mk.injEq] at h
        rw [q, h.1]
    · rw [Except.ok.injEq] at h
      exact Option.noConfusion h

theorem C10_silent_noop_save_witness :
    (Document.save (fun _ => []) ⟨witBgm, DocPath.new⟩ = .ok none
      ∧ Document.can_save ⟨witBgm, DocPath.new⟩ = false)
    ∧ (Document.save (fun _ => []) ⟨witBgm, DocPath.imported ⟨"mid"⟩⟩ = .ok none
      ∧ Document.can_save ⟨witBgm, DocPath.imported ⟨"mid"⟩⟩ = false)
    ∧ (⟨witBgm, DocPath.native ⟨"bgm"⟩⟩ : Document).path = DocPath.native ⟨"bgm"⟩ :=
  ⟨C10_silent_noop_save.1 (fun _ => []) ⟨witBgm, DocPath.new⟩ rfl,
    C10_silent_noop_save.2.1 (fun _ => []) ⟨witBgm, DocPath.imported ⟨"mid"⟩⟩ ⟨"mid"⟩ rfl,
    C10_silent_noop_save.2.2 (fun _ => []) ⟨witBgm, DocPath.native ⟨"bgm"⟩⟩ ⟨"bgm"⟩
      (Bgm.encode witBgm) (by rw [Document.save]; rfl)⟩

end Mamar
